import Mathlib

/-!
# Verification of the OOplanner geometric core

A shallow embedding, over `ℝ`, of the geometric reasoning core of the
Hornby OO layout planner (`src/app.py`): the JavaScript endpoint-geometry,
connectivity, snapping, section-transform and board-rotation functions
embedded in the Streamlit component, and, over `ℚ`, the Python load-time
payload normalisation `_normalise_layout_payload`.

Conventions of the embedding:
* JavaScript numbers are modelled as real numbers; the Python/JSON numbers
  flowing through `_normalise_layout_payload` are decimal literals and are
  modelled as rationals (so that load-time claims are decidable).
* `Math.atan2 y x` is modelled as `Complex.arg ⟨x, y⟩`, which agrees with
  it everywhere except on IEEE signed zeros, which `ℝ` does not have.
* The JS remainder `%` (sign of the dividend, truncated division) is
  modelled by `jsMod`; `Math.round` by `jsRound` (half-up); `Math.min` /
  `Math.max` over a spread list by `listMin` / `listMax`.
* JS truthiness tests on numbers (`piece.radius && piece.angle`,
  `if (deltaRotationDeg)`, `value || fallback`) become `≠ 0` tests, and on
  possibly-missing values become `Option` matches.
* Python `f"placement-{idx}"` decimal formatting is modelled by
  `natRender` built on `Nat.digits 10`.
-/

noncomputable section

open Real

/-! ## JS number primitives -/

/-- Truncation toward zero, the rounding JS uses for the `%` operator. -/
def jsTrunc (x : ℝ) : ℤ := if 0 ≤ x then ⌊x⌋ else ⌈x⌉

/-- The JS remainder `a % b`: `a - b * trunc (a / b)`, same sign as the
dividend `a`. -/
def jsMod (a b : ℝ) : ℝ := a - b * jsTrunc (a / b)

/-- JS `Math.round`: half-up rounding, `Math.round x = ⌊x + 1/2⌋`. -/
def jsRound (x : ℝ) : ℝ := (⌊x + 1 / 2⌋ : ℤ)

/-- `toRadians` from `app.py`: `(degrees || 0) * Math.PI / 180`. -/
def toRadians (degrees : ℝ) : ℝ := degrees * π / 180

/-- `toDegrees` from `app.py`. -/
def toDegrees (radians : ℝ) : ℝ := radians * 180 / π

/-- `normalizeRadians` from `app.py`: reduce an angle into `(-π, π]`
through the JS remainder followed by two conditional shifts. -/
def normalizeRadians (angle : ℝ) : ℝ :=
  let value := jsMod angle (2 * π)
  let value2 := if value ≤ -π then value + 2 * π else value
  if value2 > π then value2 - 2 * π else value2

/-- `normalizeDegrees` from `app.py`: reduce an angle in degrees into
`(-180, 180]`. -/
def normalizeDegrees (angle : ℝ) : ℝ :=
  let value := jsMod angle 360
  let value2 := if value ≤ -180 then value + 360 else value
  if value2 > 180 then value2 - 360 else value2

/-- `rotatePoint` from `app.py`. -/
def rotatePoint (x y angle : ℝ) : ℝ × ℝ :=
  (x * Real.cos angle - y * Real.sin angle, x * Real.sin angle + y * Real.cos angle)

/-- `Math.atan2 y x`, modelled by the argument of the complex number
`x + y·i` (range `(-π, π]`, `atan2 0 0 = 0`, as in JS away from `-0.0`). -/
def atan2 (y x : ℝ) : ℝ := Complex.arg ⟨x, y⟩

/-- `Math.min` over a nonempty spread list (`0` for `[]`, unused). -/
def listMin : List ℝ → ℝ
  | [] => 0
  | x :: xs => xs.foldl min x

/-- `Math.max` over a nonempty spread list (`0` for `[]`, unused). -/
def listMax : List ℝ → ℝ
  | [] => 0
  | x :: xs => xs.foldl max x

/-! ## Arithmetic facts about the JS primitives -/

lemma jsMod_int_sub (a b : ℝ) : ∃ k : ℤ, jsMod a b = a - b * k := ⟨jsTrunc (a / b), rfl⟩

lemma jsMod_nonneg_mem (a b : ℝ) (hb : 0 < b) (ha : 0 ≤ a) :
    0 ≤ jsMod a b ∧ jsMod a b < b := by
  have hdiv : 0 ≤ a / b := div_nonneg ha hb.le
  have hcancel : b * (a / b) = a := mul_div_cancel₀ a hb.ne'
  have h1 : b * (⌊a / b⌋ : ℝ) ≤ b * (a / b) :=
    mul_le_mul_of_nonneg_left (Int.floor_le _) hb.le
  have h2 : b * (a / b) < b * ((⌊a / b⌋ : ℝ) + 1) :=
    mul_lt_mul_of_pos_left (Int.lt_floor_add_one _) hb
  rw [jsMod, jsTrunc, if_pos hdiv]
  constructor <;> nlinarith

lemma jsMod_neg_mem (a b : ℝ) (hb : 0 < b) (ha : a < 0) :
    -b < jsMod a b ∧ jsMod a b ≤ 0 := by
  have hdiv : a / b < 0 := div_neg_of_neg_of_pos ha hb
  have hcancel : b * (a / b) = a := mul_div_cancel₀ a hb.ne'
  have h1 : b * (a / b) ≤ b * (⌈a / b⌉ : ℝ) :=
    mul_le_mul_of_nonneg_left (Int.le_ceil _) hb.le
  have h2 : b * ((⌈a / b⌉ : ℝ) - 1) < b * (a / b) := by
    have := Int.ceil_lt_add_one (a / b)
    exact mul_lt_mul_of_pos_left (by linarith) hb
  rw [jsMod, jsTrunc, if_neg (not_le.mpr hdiv)]
  constructor <;> nlinarith

/-- Two values of `[0, b)` that differ by an integer multiple of `b` are
equal. -/
lemma mod_rep_unique (x y b : ℝ) (hb : 0 < b) (hx0 : 0 ≤ x) (hxb : x < b)
    (hy0 : 0 ≤ y) (hyb : y < b) (k : ℤ) (h : x - y = b * k) : x = y := by
  have hk : k = 0 := by
    have hlow : (-1 : ℝ) < k := by
      rw [show ((-1 : ℝ)) = (-b) / b by field_simp]
      rw [div_lt_iff₀ hb]
      nlinarith
    have hhigh : (k : ℝ) < 1 := by
      rw [show ((1 : ℝ)) = b / b by field_simp]
      rw [lt_div_iff₀ hb]
      nlinarith
    have l1 : (-1 : ℤ) < k := by exact_mod_cast hlow
    have l2 : k < 1 := by exact_mod_cast hhigh
    omega
  rw [hk] at h
  push_cast at h
  linarith

/-- The JS remainder of a nonnegative dividend is its unique representative
in `[0, b)` modulo `b`. -/
lemma jsMod_eq_of_nonneg (a y b : ℝ) (hb : 0 < b) (ha : 0 ≤ a) (hy0 : 0 ≤ y)
    (hyb : y < b) (k : ℤ) (hk : a = y + b * k) : jsMod a b = y := by
  obtain ⟨m, hm⟩ := jsMod_int_sub a b
  obtain ⟨h0, h1⟩ := jsMod_nonneg_mem a b hb ha
  refine mod_rep_unique _ _ b hb h0 h1 hy0 hyb (k - m) ?_
  rw [hm, hk]
  push_cast
  ring

/-- `normalizeRadians` lands in `(-π, π]` and shifts by a multiple of `2π`. -/
lemma normalizeRadians_mem (a : ℝ) :
    (-π < normalizeRadians a ∧ normalizeRadians a ≤ π) ∧
      ∃ k : ℤ, normalizeRadians a = a - 2 * π * k := by
  have h2pi : (0 : ℝ) < 2 * π := by positivity
  obtain ⟨m, hm⟩ := jsMod_int_sub a (2 * π)
  rcases le_or_lt 0 a with ha | ha
  · obtain ⟨h0, h1⟩ := jsMod_nonneg_mem a (2 * π) h2pi ha
    rw [normalizeRadians]
    have hnle : ¬ (jsMod a (2 * π) ≤ -π) := by
      push_neg
      nlinarith [pi_pos]
    rw [if_neg hnle]
    by_cases hgt : jsMod a (2 * π) > π
    · rw [if_pos hgt]
      exact ⟨⟨by nlinarith, by nlinarith⟩, ⟨m + 1, by rw [hm]; push_cast; ring⟩⟩
    · rw [if_neg hgt]
      push_neg at hgt
      exact ⟨⟨by nlinarith [pi_pos], hgt⟩, ⟨m, by rw [hm]⟩⟩
  · obtain ⟨h0, h1⟩ := jsMod_neg_mem a (2 * π) h2pi ha
    rw [normalizeRadians]
    by_cases hle : jsMod a (2 * π) ≤ -π
    · rw [if_pos hle]
      have hnotgt : ¬ (jsMod a (2 * π) + 2 * π > π) := by
        push_neg
        nlinarith
      rw [if_neg hnotgt]
      push_neg at hnotgt
      exact ⟨⟨by nlinarith, hnotgt⟩, ⟨m - 1, by rw [hm]; push_cast; ring⟩⟩
    · rw [if_neg hle]
      push_neg at hle
      have hnotgt : ¬ (jsMod a (2 * π) > π) := by
        push_neg
        nlinarith [pi_pos]
      rw [if_neg hnotgt]
      exact ⟨⟨hle, by nlinarith [pi_pos]⟩, ⟨m, by rw [hm]⟩⟩

/-- Two values of the half-open symmetric interval `(-h, h]` that differ by
an integer multiple of `2h` are equal. -/
lemma sym_rep_unique (x y h : ℝ) (hh : 0 < h) (hx1 : -h < x) (hx2 : x ≤ h)
    (hy1 : -h < y) (hy2 : y ≤ h) (k : ℤ) (heq : x - y = 2 * h * k) : x = y := by
  have hk : k = 0 := by
    have hlow : (-1 : ℝ) < k := by
      rw [show ((-1 : ℝ)) = (-(2 * h)) / (2 * h) by field_simp]
      rw [div_lt_iff₀ (by linarith)]
      nlinarith
    have hhigh : (k : ℝ) < 1 := by
      rw [show ((1 : ℝ)) = (2 * h) / (2 * h) by field_simp]
      rw [lt_div_iff₀ (by linarith)]
      nlinarith
    have l1 : (-1 : ℤ) < k := by exact_mod_cast hlow
    have l2 : k < 1 := by exact_mod_cast hhigh
    omega
  rw [hk] at heq
  push_cast at heq
  linarith

/-- Two values of `(-π, π]` that differ by a multiple of `2π` are equal. -/
lemma pi_rep_unique (x y : ℝ) (hx : -π < x ∧ x ≤ π) (hy : -π < y ∧ y ≤ π)
    (k : ℤ) (h : x - y = 2 * π * k) : x = y :=
  sym_rep_unique x y π pi_pos hx.1 hx.2 hy.1 hy.2 k h

/-- Characterization: `normalizeRadians a` is the unique representative of
`a` modulo `2π` in `(-π, π]`. -/
lemma normalizeRadians_eq_of (a x : ℝ) (hx1 : -π < x) (hx2 : x ≤ π)
    (k : ℤ) (hk : a = x + 2 * π * k) : normalizeRadians a = x := by
  obtain ⟨hmem, m, hm⟩ := normalizeRadians_mem a
  refine pi_rep_unique _ _ hmem ⟨hx1, hx2⟩ (k - m) ?_
  rw [hm, hk]
  push_cast
  ring

/-- `normalizeDegrees` lands in `(-180, 180]` and shifts by a multiple of
`360`. -/
lemma normalizeDegrees_mem (a : ℝ) :
    (-180 < normalizeDegrees a ∧ normalizeDegrees a ≤ 180) ∧
      ∃ k : ℤ, normalizeDegrees a = a - 360 * k := by
  have h360 : (0 : ℝ) < 360 := by norm_num
  obtain ⟨m, hm⟩ := jsMod_int_sub a 360
  rcases le_or_lt 0 a with ha | ha
  · obtain ⟨h0, h1⟩ := jsMod_nonneg_mem a 360 h360 ha
    rw [normalizeDegrees]
    have hnle : ¬ (jsMod a 360 ≤ -180) := by push_neg; linarith
    rw [if_neg hnle]
    by_cases hgt : jsMod a 360 > 180
    · rw [if_pos hgt]
      exact ⟨⟨by linarith, by linarith⟩, ⟨m + 1, by rw [hm]; push_cast; ring⟩⟩
    · rw [if_neg hgt]
      push_neg at hgt
      exact ⟨⟨by linarith, hgt⟩, ⟨m, by rw [hm]⟩⟩
  · obtain ⟨h0, h1⟩ := jsMod_neg_mem a 360 h360 ha
    rw [normalizeDegrees]
    by_cases hle : jsMod a 360 ≤ -180
    · rw [if_pos hle]
      have hnotgt : ¬ (jsMod a 360 + 360 > 180) := by push_neg; linarith
      rw [if_neg hnotgt]
      push_neg at hnotgt
      exact ⟨⟨by linarith, hnotgt⟩, ⟨m - 1, by rw [hm]; push_cast; ring⟩⟩
    · rw [if_neg hle]
      push_neg at hle
      have hnotgt : ¬ (jsMod a 360 > 180) := by push_neg; linarith
      rw [if_neg hnotgt]
      exact ⟨⟨hle, by linarith⟩, ⟨m, by rw [hm]⟩⟩

/-- Characterization: `normalizeDegrees a` is the unique representative of
`a` modulo `360` in `(-180, 180]`. -/
lemma normalizeDegrees_eq_of (a x : ℝ) (hx1 : -180 < x) (hx2 : x ≤ 180)
    (k : ℤ) (hk : a = x + 360 * k) : normalizeDegrees a = x := by
  obtain ⟨hmem, m, hm⟩ := normalizeDegrees_mem a
  refine sym_rep_unique _ _ 180 (by norm_num) hmem.1 hmem.2 hx1 hx2 (k - m) ?_
  rw [hm, hk]
  push_cast
  ring

/-- Rotating by angles that differ by a whole number of turns (in degrees)
gives the same cosine. -/
lemma cos_toRadians_congr (a b : ℝ) (k : ℤ) (h : a = b + 360 * k) :
    Real.cos (toRadians a) = Real.cos (toRadians b) := by
  have : toRadians a = toRadians b + k * (2 * π) := by
    rw [toRadians, toRadians, h]
    ring
  rw [this, Real.cos_add_int_mul_two_pi]

/-- Rotating by angles that differ by a whole number of turns (in degrees)
gives the same sine. -/
lemma sin_toRadians_congr (a b : ℝ) (k : ℤ) (h : a = b + 360 * k) :
    Real.sin (toRadians a) = Real.sin (toRadians b) := by
  have : toRadians a = toRadians b + k * (2 * π) := by
    rw [toRadians, toRadians, h]
    ring
  rw [this, Real.sin_add_int_mul_two_pi]

/-! ## Data model: catalog pieces, placements, endpoints -/

/-- One entry of the track library payload sent to the component
(`track_payload` in `app.py`): `kind`, nominal `length`, optional curve
`angle`/`radius`, and precomputed `displayLength` (arc length for curves,
`length` otherwise).  Missing JSON values are `Option.none`. -/
structure TrackPiece where
  code : String
  kind : String
  length : ℝ
  angle : Option ℝ
  radius : Option ℝ
  displayLength : ℝ

/-- One placed piece (`placements` array element in the component). -/
structure Placement where
  id : String
  code : String
  x : ℝ
  y : ℝ
  rotation : ℝ
  flipped : Bool

/-- A world-space connection endpoint as produced by `endpointGeometry`. -/
structure Endpoint where
  x : ℝ
  y : ℝ
  tangent : ℝ
  radial : ℝ
  radialVector : ℝ × ℝ
  localPosition : ℝ × ℝ
  localTangent : ℝ
  localRadial : ℝ

/-- JS truthiness of a possibly-missing number (`piece.radius &&
piece.angle`): present and nonzero. -/
def optTruthy : Option ℝ → Prop
  | none => False
  | some v => v ≠ 0

/-- The branch condition of `endpointGeometry`:
`piece.kind === 'curve' && piece.radius && piece.angle`. -/
def curveBranch (piece : TrackPiece) : Prop :=
  piece.kind = "curve" ∧ optTruthy piece.radius ∧ optTruthy piece.angle

/-- `piece.displayLength || piece.length || 0` (JS `||` on numbers). -/
def effDisplayLength (piece : TrackPiece) : ℝ :=
  if piece.displayLength ≠ 0 then piece.displayLength
  else if piece.length ≠ 0 then piece.length
  else 0

open Classical in
/-- The local data (local position, local tangent angle) of the two
endpoints of a piece, before the placement's rotation and translation are
applied; both branches of `endpointGeometry` compute world fields from
exactly these values. -/
def localEndpoints (piece : TrackPiece) (flipped : Bool) : List ((ℝ × ℝ) × ℝ) :=
  if curveBranch piece then
    let radius := piece.radius.getD 0
    let halfTheta := toRadians (piece.angle.getD 0) / 2
    let orientation : ℝ := if flipped then -1 else 1
    [halfTheta, -halfTheta].map (fun baseAngle =>
      let angleLocal := baseAngle * orientation
      ((radius * Real.cos angleLocal, radius * Real.sin angleLocal),
        atan2 (Real.cos angleLocal * orientation) (-Real.sin angleLocal * orientation)))
  else
    let halfLength := effDisplayLength piece / 2
    [((halfLength, 0), 0), ((-halfLength, 0), π)]

/-- Lift the local data of one endpoint to world space, as both branches of
`endpointGeometry` do: rotate the local position by the placement rotation,
translate by the placement position, and normalize the tangent and radial
angles after adding the rotation. -/
def worldEndpoint (p : Placement) (le : (ℝ × ℝ) × ℝ) : Endpoint :=
  let rotation := toRadians p.rotation
  let rotated := rotatePoint le.1.1 le.1.2 rotation
  { x := p.x + rotated.1
    y := p.y + rotated.2
    tangent := normalizeRadians (le.2 + rotation)
    radial := normalizeRadians (atan2 le.1.2 le.1.1 + rotation)
    radialVector := rotated
    localPosition := le.1
    localTangent := le.2
    localRadial := atan2 le.1.2 le.1.1 }

/-- `endpointGeometry` from `app.py`: the two world endpoints of a
placement, or `[]` when its code does not resolve in the library. -/
def endpointGeometry (lib : String → Option TrackPiece) (p : Placement) : List Endpoint :=
  match lib p.code with
  | none => []
  | some piece => (localEndpoints piece p.flipped).map (worldEndpoint p)

/-- `CONNECTION_TOLERANCE_MM` from `app.py`. -/
def CONNECTION_TOLERANCE_MM : ℝ := 3

/-- `ANGLE_TOLERANCE_RAD` from `app.py`. -/
def ANGLE_TOLERANCE_RAD : ℝ := π / 36

/-- `SNAP_DISTANCE_MM` from `app.py`. -/
def SNAP_DISTANCE_MM : ℝ := 200

/-- Euclidean distance, JS `Math.hypot dx dy`. -/
def hypot (dx dy : ℝ) : ℝ := Real.sqrt (dx ^ 2 + dy ^ 2)

/-- `endpointsAreConnected` from `app.py`, as the proposition that the JS
function returns `true`.  In the embedding every endpoint carries a
`radial` value, so the `undefined`-radial guard of the source cannot fire. -/
def endpointsAreConnected (a b : Endpoint) : Prop :=
  hypot (a.x - b.x) (a.y - b.y) ≤ CONNECTION_TOLERANCE_MM ∧
    (|(|normalizeRadians (a.tangent - b.tangent)|) - π| < ANGLE_TOLERANCE_RAD ∨
      |normalizeRadians (a.radial - b.radial)| < ANGLE_TOLERANCE_RAD)

/-! ## Transform application -/

/-- The body of `applySectionTransform`'s `forEach`: rotate one placement
about the pivot when `deltaRotationDeg` is truthy (nonzero), then translate
it by `(deltaX, deltaY)`. -/
def transformPiece (pivot : ℝ × ℝ) (deltaRotationDeg deltaX deltaY : ℝ)
    (piece : Placement) : Placement :=
  let rotationRad := toRadians deltaRotationDeg
  let piece1 :=
    if deltaRotationDeg ≠ 0 then
      { piece with
        x := pivot.1 + ((piece.x - pivot.1) * Real.cos rotationRad -
          (piece.y - pivot.2) * Real.sin rotationRad)
        y := pivot.2 + ((piece.x - pivot.1) * Real.sin rotationRad +
          (piece.y - pivot.2) * Real.cos rotationRad)
        rotation := jsMod (piece.rotation + deltaRotationDeg + 360) 360 }
    else piece
  { piece1 with x := piece1.x + deltaX, y := piece1.y + deltaY }

/-- `getPlacementById` from `app.py` (`placements.find(...)`; `null`
becomes `none`). -/
def getPlacementById (ps : List Placement) (id : String) : Option Placement :=
  ps.find? (fun item => item.id = id)

/-- Mutate in place the first placement carrying the given id, as the JS
`getPlacementById(id)` + field assignments do; a missing id changes
nothing. -/
def updateFirstBy : List Placement → String → (Placement → Placement) → List Placement
  | [], _, _ => []
  | q :: rest, id, f =>
    if q.id = id then f q :: rest else q :: updateFirstBy rest id f

/-- `applySectionTransform` from `app.py`, acting on the placements list:
one `updateFirstBy` per section id, in order. -/
def applySectionTransform (ps : List Placement) (sectionIds : List String)
    (pivot : ℝ × ℝ) (deltaRotationDeg deltaX deltaY : ℝ) : List Placement :=
  sectionIds.foldl
    (fun acc id => updateFirstBy acc id (transformPiece pivot deltaRotationDeg deltaX deltaY))
    ps

/-! ## Snap solver -/

/-- One candidate recorded by `findBestSnapTransform` (the `best` object;
`rotationMagnitude` is deleted just before returning but kept here so the
selection logic can read it). -/
structure SnapCandidate where
  distance : ℝ
  deltaRotationDeg : ℝ
  deltaX : ℝ
  deltaY : ℝ
  rotationMagnitude : ℝ

open Classical in
/-- The candidate built (and validated) by the innermost loop of
`findBestSnapTransform` for one endpoint of the selected placement, one
target endpoint of another placement, and one desired tangent. -/
def snapCandidate (p : Placement) (endpoint target : Endpoint)
    (desiredTangent : ℝ) : Option SnapCandidate :=
  let distance := hypot (endpoint.x - target.x) (endpoint.y - target.y)
  let deltaRotationRad := normalizeRadians (desiredTangent - endpoint.tangent)
  let deltaRotationDeg := normalizeDegrees (toDegrees deltaRotationRad)
  let newRotationDeg := jsMod (p.rotation + deltaRotationDeg + 360) 360
  let newRotationRad := toRadians newRotationDeg
  let rotatedLocal := rotatePoint endpoint.localPosition.1 endpoint.localPosition.2 newRotationRad
  let newCenterX := target.x - rotatedLocal.1
  let newCenterY := target.y - rotatedLocal.2
  let transformedEndpoint : Endpoint :=
    { x := target.x
      y := target.y
      tangent := normalizeRadians (endpoint.localTangent + newRotationRad)
      radial := normalizeRadians (atan2 rotatedLocal.2 rotatedLocal.1)
      -- the JS object literal carries only the four fields above
      radialVector := (0, 0)
      localPosition := (0, 0)
      localTangent := 0
      localRadial := 0 }
  if endpointsAreConnected transformedEndpoint target then
    some { distance := distance
           deltaRotationDeg := deltaRotationDeg
           deltaX := newCenterX - p.x
           deltaY := newCenterY - p.y
           rotationMagnitude := |deltaRotationDeg| }
  else none

open Classical in
/-- All candidates contributed by one other placement, in the loop order of
`findBestSnapTransform` (skipping the placement itself and endpoint pairs
farther apart than `SNAP_DISTANCE_MM`). -/
def snapCandidatesFor (lib : String → Option TrackPiece) (p : Placement)
    (other : Placement) : List SnapCandidate :=
  if other.id = p.id then []
  else
    (endpointGeometry lib p).flatMap (fun endpoint =>
      (endpointGeometry lib other).flatMap (fun target =>
        if hypot (endpoint.x - target.x) (endpoint.y - target.y) > SNAP_DISTANCE_MM then []
        else
          [normalizeRadians (target.tangent + π), normalizeRadians target.tangent].filterMap
            (fun desiredTangent => snapCandidate p endpoint target desiredTangent)))

open Classical in
/-- The `best`-update rule of `findBestSnapTransform`: replace the current
best when strictly closer (beyond `1e-6`), or on a near-tie when the
rotation magnitude is smaller (beyond `1e-6`). -/
def snapBestStep (best : Option SnapCandidate) (c : SnapCandidate) : Option SnapCandidate :=
  match best with
  | none => some c
  | some b =>
    if c.distance < b.distance - 1 / 1000000 ∨
        (|c.distance - b.distance| < 1 / 1000000 ∧
          c.rotationMagnitude < b.rotationMagnitude - 1 / 1000000) then
      some c
    else some b

/-- `findBestSnapTransform` from `app.py`: fold the update rule over every
candidate of every other placement, in source order. -/
def findBestSnapTransform (lib : String → Option TrackPiece) (ps : List Placement)
    (p : Placement) : Option SnapCandidate :=
  (ps.flatMap (snapCandidatesFor lib p)).foldl snapBestStep none

/-! ## Grid snap and host-args rendering -/

/-- The `snapGrid` click handler of `app.py` with section mode off (the
single-piece id set `[selectedId]`): round the selected placement to the
10 mm grid and the 15° angle step, apply the deltas through
`applySectionTransform`, then force the exact rounded rotation. -/
def snapGridClick (ps : List Placement) (selectedId : String) : List Placement :=
  match getPlacementById ps selectedId with
  | none => ps
  | some placement =>
    let targetX := jsRound (placement.x / 10) * 10
    let targetY := jsRound (placement.y / 10) * 10
    let targetRotation := jsRound (placement.rotation / 15) * 15
    let deltaX := targetX - placement.x
    let deltaY := targetY - placement.y
    let deltaRotation := normalizeDegrees (targetRotation - placement.rotation)
    let pivot := (placement.x, placement.y)
    let ps1 := applySectionTransform ps [selectedId] pivot deltaRotation deltaX deltaY
    updateFirstBy ps1 selectedId
      (fun q => { q with rotation := jsMod (jsMod targetRotation 360 + 360) 360 })

/-- Decimal rendering of a natural number (Python `f"{idx}"`, JS
`'' + idx`), via `Nat.digits`. -/
def natRender (n : ℕ) : String :=
  if n = 0 then "0" else ⟨((Nat.digits 10 n).reverse.map Nat.digitChar)⟩

/-- One element of the `placements` render argument handed to
`applyRenderArgs` (a JS object: possibly-missing fields are `Option`). -/
structure RenderItem where
  id : Option String
  code : String
  x : Option ℝ
  y : Option ℝ
  rotation : Option ℝ
  flipped : Bool

/-- The placements part of `applyRenderArgs` from `app.py`: default missing
ids to `placement-<idx>` (JS `||`, so the empty string is also replaced),
missing coordinates to `0`, and keep every numeric `rotation` verbatim. -/
def renderPlacementItem (idx : ℕ) (item : RenderItem) : Placement :=
  { id := match item.id with
      | some s => if s = "" then "placement-" ++ natRender idx else s
      | none => "placement-" ++ natRender idx
    code := item.code
    x := item.x.getD 0
    y := item.y.getD 0
    rotation := item.rotation.getD 0
    flipped := item.flipped }

def renderPlacements (items : List RenderItem) : List Placement :=
  items.enum.map (fun p => renderPlacementItem p.1 p.2)

/-- `addPiece` from `app.py`, restricted to the placements list and the
`nextId` counter: push a new placement at the board centre with rotation
`0`, id `placement-<nextId>`. -/
def addPiece (lib : String → Option TrackPiece) (ps : List Placement) (nextId : ℕ)
    (boardCenter : ℝ × ℝ) (code : String) : List Placement :=
  match lib code with
  | none => ps
  | some _ =>
    ps ++ [{ id := "placement-" ++ natRender nextId
             code := code
             x := boardCenter.1
             y := boardCenter.2
             rotation := 0
             flipped := false }]

/-! ## Board state and board rotation -/

/-- A guide circle (`guideCircles` element); only the fields `rotateBoard`
touches are geometric. -/
structure GuideCircle where
  id : String
  radius : ℝ
  x : ℝ
  y : ℝ
  color : Option String
  label : Option String

/-- The mutable component state read and written by `rotateBoard` and
`recalculateBoardGeometry`.  The view-scaling fields (`widthMm`,
`heightMm`, zoom, pan) are recomputed from the polygon and never feed back
into geometry, so they are not part of the modelled state. -/
structure BoardState where
  polygon : List (ℝ × ℝ)
  placements : List Placement
  guideCircles : List GuideCircle
  boardOrientation : ℝ
  boardCenter : ℝ × ℝ

/-- `defaultPolygon` from `app.py`. -/
def defaultPolygon : List (ℝ × ℝ) :=
  [(0, 0), (2400, 0), (2400, 1200), (0, 1200)]

/-- The bounding-box centre computed by `recalculateBoardGeometry`. -/
def bboxCenter (polygon : List (ℝ × ℝ)) : ℝ × ℝ :=
  ((listMin (polygon.map Prod.fst) + listMax (polygon.map Prod.fst)) / 2,
    (listMin (polygon.map Prod.snd) + listMax (polygon.map Prod.snd)) / 2)

open Classical in
/-- `recalculateBoardGeometry` from `app.py`: replace an empty polygon by
the default one and recompute the bounding-box centre.  (`clonePoint` is
the identity on real pairs.) -/
def recalculateBoardGeometry (s : BoardState) : BoardState :=
  let polygon := if s.polygon = [] then defaultPolygon else s.polygon
  { s with polygon := polygon, boardCenter := bboxCenter polygon }

/-- `rotateBoard` from `app.py`: rotate the polygon, every placement and
every guide circle about the current board centre, bump every placement
rotation and the board orientation, then recalculate the board geometry.
(The `Number.isFinite` guard cannot fire over `ℝ`; the trailing draw/emit
calls are view-only.) -/
def rotateBoard (deltaDegrees : ℝ) (s : BoardState) : BoardState :=
  let radians := toRadians deltaDegrees
  let centre := s.boardCenter
  let polygon := s.polygon.map (fun point =>
    let rotated := rotatePoint (point.1 - centre.1) (point.2 - centre.2) radians
    (centre.1 + rotated.1, centre.2 + rotated.2))
  let placements := s.placements.map (fun piece =>
    let rotated := rotatePoint (piece.x - centre.1) (piece.y - centre.2) radians
    { piece with
      x := centre.1 + rotated.1
      y := centre.2 + rotated.2
      rotation := jsMod (piece.rotation + deltaDegrees + 360) 360 })
  let guideCircles := s.guideCircles.map (fun circle =>
    let rotated := rotatePoint (circle.x - centre.1) (circle.y - centre.2) radians
    { circle with x := centre.1 + rotated.1, y := centre.2 + rotated.2 })
  recalculateBoardGeometry
    { polygon := polygon
      placements := placements
      guideCircles := guideCircles
      boardOrientation := jsMod (s.boardOrientation + deltaDegrees) 360
      boardCenter := s.boardCenter }

/-- The state-level view of `applySectionTransform`: the handler mutates
only the placements array; circles, polygon, orientation and centre are
untouched. -/
def stateApplySectionTransform (s : BoardState) (sectionIds : List String)
    (pivot : ℝ × ℝ) (deltaRotationDeg deltaX deltaY : ℝ) : BoardState :=
  { s with
    placements := applySectionTransform s.placements sectionIds pivot
      deltaRotationDeg deltaX deltaY }

/-! ## Python-side payload normalisation (`_normalise_layout_payload`) -/

/-- A Python/JSON value as received by `_normalise_layout_payload`.
Numbers are JSON decimal literals, carried as rationals; Python `bool` is
kept distinct because `isinstance(True, int)` holds and truthiness differs.
Dict keys of interest are strings. -/
inductive PyVal where
  | none
  | bool (b : Bool)
  | num (q : ℚ)
  | str (s : String)
  | list (xs : List PyVal)
  | dict (kvs : List (String × PyVal))

/-- Python `dict.get(key)` (first binding wins, `None` when absent). -/
def pyGet (kvs : List (String × PyVal)) (key : String) : PyVal :=
  match kvs.find? (fun kv => kv.1 = key) with
  | Option.none => PyVal.none
  | Option.some kv => kv.2

/-- Python truthiness `bool(value)`. -/
def pyTruthy : PyVal → Bool
  | .none => false
  | .bool b => b
  | .num q => q ≠ 0
  | .str s => s ≠ ""
  | .list xs => !xs.isEmpty
  | .dict kvs => !kvs.isEmpty

/-- The digits of a character list read as a natural number (helper for the
`float(str)` model). -/
def digitsNat (cs : List Char) : ℕ :=
  cs.foldl (fun acc c => 10 * acc + (c.toNat - '0'.toNat)) 0

/-- Model of Python `float(s)` on plain decimal literals: optional sign,
integer digits, optional `.` and fraction digits, at least one digit.
(Exponents, `inf`/`nan`, underscores and surrounding whitespace, which the
builtin also accepts, do not occur in the payloads this spec covers.) -/
def pyParseFloat (s : String) : Option ℚ :=
  let withSign : ℚ → List Char → Option ℚ := fun sign rest =>
    let ipart := rest.takeWhile Char.isDigit
    let r2 := rest.dropWhile Char.isDigit
    match r2 with
    | [] => if ipart = [] then Option.none else Option.some (sign * digitsNat ipart)
    | '.' :: fpart =>
      if fpart.all Char.isDigit ∧ (ipart ≠ [] ∨ fpart ≠ []) then
        Option.some (sign * ((digitsNat ipart : ℚ) +
          (digitsNat fpart : ℚ) / (10 : ℚ) ^ fpart.length))
      else Option.none
    | _ => Option.none
  match s.data with
  | '-' :: rest => withSign (-1) rest
  | '+' :: rest => withSign 1 rest
  | rest => withSign 1 rest

/-- `_to_float` from `app.py`: ints and floats (hence also booleans) via
`float(value)`, strings via `float(str)` with the default on a parse
failure, anything else via the default. -/
def toFloatPy (value : PyVal) (default : ℚ) : ℚ :=
  match value with
  | .num q => q
  | .bool b => if b then 1 else 0
  | .str s => (pyParseFloat s).getD default
  | _ => default

/-- A normalised placement as produced by `_normalise_layout_payload`
(coordinates stay the rational payload values). -/
structure PyPlacement where
  id : String
  code : String
  x : ℚ
  y : ℚ
  rotation : ℚ
  flipped : Bool
  deriving Repr, DecidableEq

/-- A normalised guide circle as produced by `_normalise_layout_payload`. -/
structure PyCircle where
  id : String
  radius : ℚ
  x : ℚ
  y : ℚ
  color : Option String
  label : Option String
  deriving Repr, DecidableEq

/-- The triple `_normalise_layout_payload` returns. -/
structure NormalisedLayout where
  placements : List PyPlacement
  circles : List PyCircle
  zoom : Option ℚ
  deriving Repr, DecidableEq

/-- The per-element body of the placements loop: `Option.none` when the
element is dropped (not a dict, or its `code` is not a nonempty string). -/
def normalisePlacementItem (idx : ℕ) (rawItem : PyVal) : Option PyPlacement :=
  match rawItem with
  | .dict kvs =>
    match pyGet kvs "code" with
    | .str code =>
      if code = "" then Option.none
      else
        Option.some
          { id := match pyGet kvs "id" with
              | .str s => if s = "" then "placement-" ++ natRender idx else s
              | _ => "placement-" ++ natRender idx
            code := code
            x := toFloatPy (pyGet kvs "x") 0
            y := toFloatPy (pyGet kvs "y") 0
            rotation := toFloatPy (pyGet kvs "rotation") 0
            flipped := pyTruthy (pyGet kvs "flipped") }
    | _ => Option.none
  | _ => Option.none

/-- The per-element body of the circles loop. -/
def normaliseCircleItem (idx : ℕ) (rawCircle : PyVal) : Option PyCircle :=
  match rawCircle with
  | .dict kvs =>
    let radius := toFloatPy (pyGet kvs "radius") 0
    if radius ≤ 0 then Option.none
    else
      Option.some
        { id := match pyGet kvs "id" with
            | .str s => if s = "" then "circle-" ++ natRender idx else s
            | _ => "circle-" ++ natRender idx
          radius := radius
          x := toFloatPy (pyGet kvs "x") 0
          y := toFloatPy (pyGet kvs "y") 0
          color := match pyGet kvs "color" with
            | .str s => if s = "" then Option.none else Option.some s
            | _ => Option.none
          label := match pyGet kvs "label" with
            | .str s => if s = "" then Option.none else Option.some s
            | _ => Option.none }
  | _ => Option.none

/-- The `placements_payload` selected at the top of
`_normalise_layout_payload`: the `"placements"` entry of a dict payload,
the payload itself otherwise. -/
def placementsPayloadOf (data : PyVal) : PyVal :=
  match data with
  | .dict kvs => pyGet kvs "placements"
  | _ => data

/-- The `circles_payload` selected at the top of
`_normalise_layout_payload` (initialised to `[]` for non-dict data). -/
def circlesPayloadOf (data : PyVal) : PyVal :=
  match data with
  | .dict kvs => pyGet kvs "circles"
  | _ => .list []

/-- The zoom value selected at the top of `_normalise_layout_payload`
(`isinstance(zoom_raw, (int, float))` also admits booleans). -/
def zoomValueOf (data : PyVal) : Option ℚ :=
  match data with
  | .dict kvs =>
    match pyGet kvs "zoom" with
    | .num q => Option.some q
    | .bool b => Option.some (if b then 1 else 0)
    | _ => Option.none
  | _ => Option.none

/-- `_normalise_layout_payload` from `app.py`.  `Except.error` models the
two `raise ValueError` sites; every other input returns normally. -/
def normaliseLayoutPayload (data : PyVal) : Except String NormalisedLayout :=
  let placementsPayload := placementsPayloadOf data
  let circlesPayload := circlesPayloadOf data
  let zoomValue := zoomValueOf data
  match placementsPayload with
  | .list items =>
    let normalised := (items.enum.map (fun (idx, raw) => normalisePlacementItem idx raw)).reduceOption
    if items.isEmpty = false ∧ normalised = [] then
      Except.error "No valid placements were found in the layout JSON."
    else
      let circles :=
        match circlesPayload with
        | .list citems =>
          (citems.enum.map (fun (idx, raw) => normaliseCircleItem idx raw)).reduceOption
        | _ => []
      Except.ok { placements := normalised, circles := circles, zoom := zoomValue }
  | _ => Except.error "Layout JSON must contain a list of placements."

/-! ## Facts about the Python normalisation -/

lemma natRender_zero : natRender 0 = "0" := by
  unfold natRender
  norm_num

lemma natRender_one : natRender 1 = "1" := by
  unfold natRender
  norm_num
  rfl

lemma digitChar_inj (a b : ℕ) (ha : a < 10) (hb : b < 10)
    (h : Nat.digitChar a = Nat.digitChar b) : a = b := by
  interval_cases a <;> interval_cases b <;> simp_all [Nat.digitChar]

lemma map_digitChar_inj : ∀ (l1 l2 : List ℕ), (∀ x ∈ l1, x < 10) → (∀ x ∈ l2, x < 10) →
    l1.map Nat.digitChar = l2.map Nat.digitChar → l1 = l2
  | [], [], _, _, _ => rfl
  | a :: l1, b :: l2, h1, h2, h => by
    simp only [List.map_cons, List.cons.injEq] at h
    have := digitChar_inj a b (h1 a (by simp)) (h2 b (by simp)) h.1
    subst this
    rw [map_digitChar_inj l1 l2 (fun x hx => h1 x (by simp [hx]))
      (fun x hx => h2 x (by simp [hx])) h.2]

/-- Decimal rendering of naturals is injective. -/
lemma natRender_injective : Function.Injective natRender := by
  intro a b h
  unfold natRender at h
  by_cases ha : a = 0 <;> by_cases hb : b = 0
  · omega
  · exfalso
    rw [if_pos ha, if_neg hb] at h
    have hd : ['0'] = (Nat.digits 10 b).reverse.map Nat.digitChar := congrArg String.data h
    obtain ⟨d, hd1, hd2⟩ : ∃ d, (Nat.digits 10 b).reverse = [d] ∧ Nat.digitChar d = '0' := by
      match hrev : (Nat.digits 10 b).reverse with
      | [] => rw [hrev] at hd; simp at hd
      | [d] => rw [hrev] at hd; simp at hd; exact ⟨d, rfl, hd.symm⟩
      | d :: e :: l => rw [hrev] at hd; simp at hd
    have hdlt : d < 10 := by
      have : d ∈ Nat.digits 10 b := by
        rw [← List.mem_reverse, hd1]; simp
      exact Nat.digits_lt_base (by norm_num) this
    have : d = 0 := digitChar_inj d 0 hdlt (by norm_num) (by simpa using hd2)
    subst this
    have : Nat.digits 10 b = [0] := by
      have := congrArg List.reverse hd1
      simpa using this
    have := congrArg (Nat.ofDigits 10) this
    rw [Nat.ofDigits_digits] at this
    simp [Nat.ofDigits] at this
    exact hb this
  · exfalso
    rw [if_neg ha, if_pos hb] at h
    have hd : (Nat.digits 10 a).reverse.map Nat.digitChar = ['0'] := congrArg String.data h
    obtain ⟨d, hd1, hd2⟩ : ∃ d, (Nat.digits 10 a).reverse = [d] ∧ Nat.digitChar d = '0' := by
      match hrev : (Nat.digits 10 a).reverse with
      | [] => rw [hrev] at hd; simp at hd
      | [d] => rw [hrev] at hd; simp at hd; exact ⟨d, rfl, hd⟩
      | d :: e :: l => rw [hrev] at hd; simp at hd
    have hdlt : d < 10 := by
      have : d ∈ Nat.digits 10 a := by
        rw [← List.mem_reverse, hd1]; simp
      exact Nat.digits_lt_base (by norm_num) this
    have : d = 0 := digitChar_inj d 0 hdlt (by norm_num) (by simpa using hd2)
    subst this
    have : Nat.digits 10 a = [0] := by
      have := congrArg List.reverse hd1
      simpa using this
    have := congrArg (Nat.ofDigits 10) this
    rw [Nat.ofDigits_digits] at this
    simp [Nat.ofDigits] at this
    exact ha this
  · rw [if_neg ha, if_neg hb] at h
    have hd := congrArg String.data h
    simp only at hd
    have := map_digitChar_inj _ _
      (fun x hx => Nat.digits_lt_base (by norm_num) (List.mem_reverse.mp hx))
      (fun x hx => Nat.digits_lt_base (by norm_num) (List.mem_reverse.mp hx)) hd
    have := List.reverse_injective this
    exact Function.LeftInverse.injective (Nat.ofDigits_digits 10) this

/-- Synthesized placement ids are distinct across distinct indices. -/
lemma synthId_inj (a b : ℕ) (h : "placement-" ++ natRender a = "placement-" ++ natRender b) :
    a = b := by
  apply natRender_injective
  have hd := congrArg String.data h
  simp only [String.data_append] at hd
  exact congrArg String.mk (List.append_cancel_left hd)

/-- The explicit id an element supplies: a nonempty string under key
`"id"`. -/
def explicitId (raw : PyVal) : Option String :=
  match raw with
  | .dict kvs =>
    match pyGet kvs "id" with
    | .str s => if s = "" then Option.none else Option.some s
    | _ => Option.none
  | _ => Option.none

/-- An element survives the placements loop iff it is a dict whose
`"code"` is a nonempty string. -/
def keepableElement : PyVal → Prop
  | .dict kvs =>
    match pyGet kvs "code" with
    | .str c => c ≠ ""
    | _ => False
  | _ => False

lemma normalisePlacementItem_eq_none_iff (idx : ℕ) (raw : PyVal) :
    normalisePlacementItem idx raw = Option.none ↔ ¬ keepableElement raw := by
  unfold normalisePlacementItem keepableElement
  rcases raw with _ | _ | _ | _ | _ | kvs <;> try simp
  rcases h : pyGet kvs "code" with _ | _ | _ | c | _ | _ <;> simp [h]

lemma normalisePlacementItem_id (idx : ℕ) (raw : PyVal) (pl : PyPlacement)
    (h : normalisePlacementItem idx raw = Option.some pl) :
    pl.id = (explicitId raw).getD ("placement-" ++ natRender idx) := by
  unfold normalisePlacementItem at h
  split at h
  next kvs =>
    split at h
    next code hcode =>
      split at h
      next => exact absurd h (by simp)
      next hne =>
        rw [Option.some.injEq] at h
        subst h
        simp only [explicitId, hcode]
        rcases hid : pyGet kvs "id" with _ | _ | _ | s | _ | _ <;> simp [hid]
        by_cases hs : s = "" <;> simp [hs]
    next => exact absurd h (by simp)
  next => exact absurd h (by simp)

/-- The normalised placements of a successful load, as an indexed
filter-map over the payload elements. -/
lemma normalise_ok_placements (data : PyVal) (items : List PyVal) (out : NormalisedLayout)
    (hp : placementsPayloadOf data = PyVal.list items)
    (hok : normaliseLayoutPayload data = Except.ok out) :
    out.placements = (items.enum).filterMap (fun p => normalisePlacementItem p.1 p.2) := by
  unfold normaliseLayoutPayload at hok
  rw [hp] at hok
  dsimp only at hok
  split at hok
  · exact absurd hok (by simp)
  · rw [Except.ok.injEq] at hok
    subst hok
    simp [List.reduceOption]

/-- Every id produced by the placements loop over `enumFrom n` is either an
explicit payload id or a synthesized id with index at least `n`. -/
lemma keptIds_cases (items : List PyVal) (n : ℕ) (id : String)
    (h : id ∈ ((items.enumFrom n).filterMap
      (fun p => normalisePlacementItem p.1 p.2)).map PyPlacement.id) :
    id ∈ items.filterMap explicitId ∨ ∃ k, n ≤ k ∧ id = "placement-" ++ natRender k := by
  induction items generalizing n with
  | nil => simp at h
  | cons raw rest ih =>
    rw [List.enumFrom_cons, List.filterMap_cons] at h
    rcases hitem : normalisePlacementItem n raw with _ | pl <;> rw [hitem] at h
    · rcases ih (n + 1) h with h1 | ⟨k, hk, hid⟩
      · left
        rw [List.filterMap_cons]
        cases explicitId raw <;> simp [h1]
      · right
        exact ⟨k, by omega, hid⟩
    · rw [List.map_cons] at h
      rcases List.mem_cons.mp h with h0 | h1
      · have hid := normalisePlacementItem_id n raw pl hitem
        rcases hexp : explicitId raw with _ | str
        · right
          refine ⟨n, le_refl n, ?_⟩
          rw [h0, hid, hexp]
          rfl
        · left
          rw [List.filterMap_cons, hexp]
          rw [hid, hexp] at h0
          simp [h0]
      · rcases ih (n + 1) h1 with h2 | ⟨k, hk, hid2⟩
        · left
          rw [List.filterMap_cons]
          cases explicitId raw <;> simp [h2]
        · right
          exact ⟨k, by omega, hid2⟩

/-- With pairwise-distinct explicit ids, none of them of the synthesized
`placement-<k>` form, the placements loop yields pairwise-distinct ids. -/
lemma keptIds_nodup (items : List PyVal) (n : ℕ)
    (hdist : (items.filterMap explicitId).Nodup)
    (hform : ∀ s ∈ items.filterMap explicitId, ∀ k : ℕ, s ≠ "placement-" ++ natRender k) :
    (((items.enumFrom n).filterMap
      (fun p => normalisePlacementItem p.1 p.2)).map PyPlacement.id).Nodup := by
  induction items generalizing n with
  | nil => simp
  | cons raw rest ih =>
    have hdistrest : (rest.filterMap explicitId).Nodup := by
      rw [List.filterMap_cons] at hdist
      cases hexp : explicitId raw <;> rw [hexp] at hdist
      · exact hdist
      · exact hdist.of_cons
    have hmemrest : ∀ s ∈ rest.filterMap explicitId, s ∈ (raw :: rest).filterMap explicitId := by
      intro s hs
      rw [List.filterMap_cons]
      cases explicitId raw <;> simp [hs]
    have hformrest : ∀ s ∈ rest.filterMap explicitId, ∀ k : ℕ,
        s ≠ "placement-" ++ natRender k :=
      fun s hs => hform s (hmemrest s hs)
    rw [List.enumFrom_cons, List.filterMap_cons]
    rcases hitem : normalisePlacementItem n raw with _ | pl
    · exact ih (n + 1) hdistrest hformrest
    · rw [List.map_cons, List.nodup_cons]
      refine ⟨?_, ih (n + 1) hdistrest hformrest⟩
      intro hmem
      have hid := normalisePlacementItem_id n raw pl hitem
      rcases keptIds_cases rest (n + 1) pl.id hmem with h1 | ⟨k, hk, hsyn⟩
      · rcases hexp : explicitId raw with _ | s
        · rw [hexp] at hid
          simp only [Option.getD] at hid
          exact hformrest pl.id h1 n (by rw [hid])
        · rw [hexp] at hid
          simp only [Option.getD] at hid
          rw [List.filterMap_cons, hexp] at hdist
          rw [List.nodup_cons] at hdist
          rw [hid] at h1
          exact hdist.1 h1
      · rcases hexp : explicitId raw with _ | s
        · rw [hexp] at hid
          simp only [Option.getD] at hid
          rw [hid] at hsyn
          have := synthId_inj n k hsyn
          omega
        · rw [hexp] at hid
          simp only [Option.getD] at hid
          have hsmem : s ∈ (raw :: rest).filterMap explicitId := by
            rw [List.filterMap_cons, hexp]
            simp
          exact hform s hsmem k (by rw [← hid, hsyn])

/-- The placements loop keeps nothing iff no element is keepable. -/
lemma keptPlacements_eq_nil_iff (items : List PyVal) (n : ℕ) :
    ((items.enumFrom n).filterMap (fun p => normalisePlacementItem p.1 p.2)) = [] ↔
      ∀ raw ∈ items, ¬ keepableElement raw := by
  induction items generalizing n with
  | nil => simp
  | cons raw rest ih =>
    rw [List.enumFrom_cons, List.filterMap_cons]
    rcases hitem : normalisePlacementItem n raw with _ | pl
    · have hraw := (normalisePlacementItem_eq_none_iff n raw).mp hitem
      simp only [List.mem_cons]
      constructor
      · intro h r hr
        rcases hr with hr | hr
        · rw [hr]; exact hraw
        · exact (ih (n + 1)).mp h r hr
      · intro h
        exact (ih (n + 1)).mpr (fun r hr => h r (Or.inr hr))
    · constructor
      · intro h
        exact absurd h (by simp)
      · intro h
        exfalso
        have := (normalisePlacementItem_eq_none_iff n raw).mpr (h raw (by simp))
        rw [this] at hitem
        exact absurd hitem (by simp)

/-- A payload value that is a Python list. -/
def pyIsList : PyVal → Prop
  | .list _ => True
  | _ => False

/-- A payload value that is a Python dict. -/
def pyIsDict : PyVal → Prop
  | .dict _ => True
  | _ => False

/-- The load raises iff the placements payload is not a list, or is a
nonempty list every element of which is dropped (not a dict, or without a
nonempty string `code`). -/
lemma normalise_raises_iff (data : PyVal) :
    (∃ msg, normaliseLayoutPayload data = Except.error msg) ↔
      (¬ pyIsList (placementsPayloadOf data) ∨
        ∃ items, placementsPayloadOf data = PyVal.list items ∧ items ≠ [] ∧
          ∀ raw ∈ items, ¬ keepableElement raw) := by
  rcases hp : placementsPayloadOf data with _ | _ | _ | _ | items | _
  case list =>
    unfold normaliseLayoutPayload
    rw [hp]
    dsimp only
    have hnil := keptPlacements_eq_nil_iff items 0
    rw [show items.enum = items.enumFrom 0 from rfl] at *
    constructor
    · intro ⟨msg, hmsg⟩
      split at hmsg
      · right
        rename_i hcond
        rw [List.isEmpty_eq_false_iff_exists_mem] at hcond
        refine ⟨items, rfl, ?_, ?_⟩
        · rcases hcond.1 with ⟨a, ha⟩
          intro hnilitems
          rw [hnilitems] at ha
          exact absurd ha (by simp)
        · apply hnil.mp
          have := hcond.2
          rw [← this]
          simp [List.reduceOption]
      · exact absurd hmsg (by simp)
    · intro h
      rcases h with h | ⟨items2, hitems2, hne, hall⟩
      · rw [pyIsList] at h
        exact absurd trivial h
      · rw [PyVal.list.injEq] at hitems2
        subst hitems2
        have hker : ((items.enumFrom 0).map
            (fun p => normalisePlacementItem p.1 p.2)).reduceOption = [] := by
          rw [List.reduceOption, List.filterMap_map]
          simpa using hnil.mpr hall
        split
        · exact ⟨_, rfl⟩
        · rename_i hcond
          exfalso
          apply hcond
          constructor
          · rw [List.isEmpty_eq_false_iff_exists_mem]
            rcases items with _ | ⟨a, rest⟩
            · exact absurd rfl hne
            · exact ⟨a, by simp⟩
          · simpa [List.reduceOption] using hker
  all_goals
    unfold normaliseLayoutPayload
    rw [hp]
    simp [pyIsList]

/-- Short strings are never of the synthesized `placement-<k>` form. -/
lemma ne_synthId_of_short (s : String) (hs : s.length < 10) (k : ℕ) :
    s ≠ "placement-" ++ natRender k := by
  intro h
  have hlen := congrArg String.length h
  rw [String.length_append] at hlen
  have : ("placement-" : String).length = 10 := by decide
  omega

def c6payload : PyVal :=
  .list [.dict [("code", .str "a"), ("id", .str "placement-1")], .dict [("code", .str "b")]]

def c6okItems : List PyVal :=
  [.dict [("code", .str "a"), ("id", .str "a")], .dict [("code", .str "b")]]

def c6okPayload : PyVal := .list c6okItems

def c6okOut : NormalisedLayout :=
  { placements := [⟨"a", "a", 0, 0, 0, false⟩, ⟨"placement-1", "b", 0, 0, 0, false⟩]
    circles := []
    zoom := Option.none }

/-- C6, counterexample: loading a payload in which one element explicitly
carries the id `placement-1` and the next element synthesizes its id leaves
two placements with the id `"placement-1"`. -/
theorem C6_duplicate_id_counterexample :
    (normaliseLayoutPayload c6payload).toOption.map
        (fun out => out.placements.map PyPlacement.id) =
      Option.some ["placement-1", "placement-1"] ∧
    ¬ (["placement-1", "placement-1"] : List String).Nodup := by
  constructor
  · simp [c6payload, normaliseLayoutPayload, placementsPayloadOf, circlesPayloadOf,
      zoomValueOf, normalisePlacementItem, pyGet, List.find?, List.reduceOption,
      List.enum, List.enumFrom, toFloatPy, pyTruthy, natRender_one, Except.toOption]
  · decide

/-- C6 (amended): after load-time normalisation ids are unique provided the
payload's explicit ids are pairwise distinct and none has the synthesized
`placement-<k>` form; and `addPiece` preserves uniqueness whenever its
generated id `placement-<nextId>` is not already present. -/
theorem C6_unique_ids_amended (data : PyVal) (items : List PyVal) (out : NormalisedLayout)
    (hp : placementsPayloadOf data = PyVal.list items)
    (hok : normaliseLayoutPayload data = Except.ok out)
    (hdist : (items.filterMap explicitId).Nodup)
    (hform : ∀ s ∈ items.filterMap explicitId, ∀ k : ℕ, s ≠ "placement-" ++ natRender k) :
    (out.placements.map PyPlacement.id).Nodup ∧
      ∀ (lib : String → Option TrackPiece) (ps : List Placement) (nextId : ℕ)
        (centre : ℝ × ℝ) (code : String),
        (ps.map Placement.id).Nodup →
        (∀ q ∈ ps, q.id ≠ "placement-" ++ natRender nextId) →
        ((addPiece lib ps nextId centre code).map Placement.id).Nodup := by
  constructor
  · rw [normalise_ok_placements data items out hp hok]
    exact keptIds_nodup items 0 hdist hform
  · intro lib ps nextId centre code hnodup hfresh
    unfold addPiece
    cases lib code
    · exact hnodup
    · rw [List.map_append, List.nodup_append]
      refine ⟨hnodup, by simp, ?_⟩
      intro a ha hmem
      simp only [List.map_cons, List.map_nil, List.mem_singleton] at hmem
      rcases List.mem_map.mp ha with ⟨q, hq, hqa⟩
      exact hfresh q hq (by rw [hqa, hmem])

/-- C6, witness scenario: a load whose explicit ids are distinct and not of
the synthesized form produces unique ids; a fresh `addPiece` keeps them
unique. -/
theorem C6_unique_ids_witness :
    placementsPayloadOf c6okPayload = PyVal.list c6okItems ∧
    normaliseLayoutPayload c6okPayload = Except.ok c6okOut ∧
    (c6okOut.placements.map PyPlacement.id).Nodup := by
  have hp : placementsPayloadOf c6okPayload = PyVal.list c6okItems := rfl
  have hok : normaliseLayoutPayload c6okPayload = Except.ok c6okOut := by
    simp [c6okPayload, c6okItems, c6okOut, normaliseLayoutPayload, placementsPayloadOf,
      circlesPayloadOf, zoomValueOf, normalisePlacementItem, pyGet, List.find?,
      List.reduceOption, List.enum, List.enumFrom, toFloatPy, pyTruthy, natRender_one]
  have hdist : (c6okItems.filterMap explicitId).Nodup := by
    simp [c6okItems, explicitId, pyGet, List.find?]
  have hform : ∀ s ∈ c6okItems.filterMap explicitId, ∀ k : ℕ,
      s ≠ "placement-" ++ natRender k := by
    intro s hs k
    have : s = "a" := by
      simpa [c6okItems, explicitId, pyGet, List.find?] using hs
    rw [this]
    exact ne_synthId_of_short "a" (by decide) k
  exact ⟨hp, hok,
    (C6_unique_ids_amended c6okPayload c6okItems c6okOut hp hok hdist hform).1⟩

/-- Claim C7 as stated: the load raises iff the placements payload is not a
list, or is a nonempty list in which every element was dropped, where only
non-dict elements are dropped. -/
def claimC7Statement (data : PyVal) : Prop :=
  (∃ msg, normaliseLayoutPayload data = Except.error msg) ↔
    (¬ pyIsList (placementsPayloadOf data) ∨
      ∃ items, placementsPayloadOf data = PyVal.list items ∧ items ≠ [] ∧
        ∀ raw ∈ items, ¬ pyIsDict raw)

def c7payload : PyVal := .list [.dict [("x", .num 1)]]

/-- C7, counterexample: a one-element list whose element is a dict without
a `code` raises, although the claim says dict elements are always kept. -/
theorem C7_dict_without_code_counterexample : ¬ claimC7Statement c7payload := by
  unfold claimC7Statement c7payload
  intro hiff
  have herr : ∃ msg, normaliseLayoutPayload (.list [.dict [("x", .num 1)]]) =
      Except.error msg := by
    refine ⟨"No valid placements were found in the layout JSON.", ?_⟩
    simp [normaliseLayoutPayload, placementsPayloadOf, circlesPayloadOf, zoomValueOf,
      normalisePlacementItem, pyGet, List.find?, List.reduceOption, List.enum,
      List.enumFrom]
  rcases hiff.mp herr with h | ⟨items, hitems, hne, hall⟩
  · exact h trivial
  · have hq : items = [.dict [("x", .num 1)]] := by
      have : PyVal.list [.dict [("x", .num 1)]] = PyVal.list items := hitems
      exact (PyVal.list.injEq _ _ ▸ this).symm
    subst hq
    exact hall (.dict [("x", .num 1)]) (by simp) trivial

/-- C7 (amended): the load raises iff the placements payload is not a list,
or is a nonempty list in which every element was dropped, where an element
is dropped when it is not a dict or its `code` is not a nonempty string. -/
theorem C7_load_raises_iff_amended (data : PyVal) :
    (∃ msg, normaliseLayoutPayload data = Except.error msg) ↔
      (¬ pyIsList (placementsPayloadOf data) ∨
        ∃ items, placementsPayloadOf data = PyVal.list items ∧ items ≠ [] ∧
          ∀ raw ∈ items, ¬ keepableElement raw) :=
  normalise_raises_iff data

/-- Claim C8 as stated: within every kept dict element, an absent id is
synthesized, a non-numeric `x`/`y`/`rotation` value becomes `0.0`, and a
non-boolean `flipped` value becomes `false`. -/
def claimC8Statement (items : List PyVal) : Prop :=
  ∀ idx kvs pl, items.get? idx = Option.some (PyVal.dict kvs) →
    normalisePlacementItem idx (PyVal.dict kvs) = Option.some pl →
    (pyGet kvs "id" = PyVal.none → pl.id = "placement-" ++ natRender idx) ∧
    ((∀ q : ℚ, pyGet kvs "x" ≠ PyVal.num q) → pl.x = 0) ∧
    ((∀ q : ℚ, pyGet kvs "y" ≠ PyVal.num q) → pl.y = 0) ∧
    ((∀ q : ℚ, pyGet kvs "rotation" ≠ PyVal.num q) → pl.rotation = 0) ∧
    ((∀ b : Bool, pyGet kvs "flipped" ≠ PyVal.bool b) → pl.flipped = false)

def c8kvs : List (String × PyVal) :=
  [("code", .str "R600"), ("x", .str "2.5"), ("rotation", .bool true), ("flipped", .str "yes")]

/-- C8, counterexample: a numeric string `"2.5"` for `x` is parsed (not
zeroed), a boolean `rotation` becomes `1.0` (Python booleans are ints), and
a truthy non-boolean `flipped` becomes `true`, not `false`. -/
theorem C8_defaulting_counterexample : ¬ claimC8Statement [.dict c8kvs] := by
  unfold claimC8Statement
  intro hclaim
  have hpl : normalisePlacementItem 0 (PyVal.dict c8kvs) =
      Option.some ⟨"placement-0", "R600", 5 / 2, 0, 1, true⟩ := by
    simp [normalisePlacementItem, c8kvs, pyGet, List.find?, toFloatPy, pyTruthy,
      pyParseFloat, digitsNat, natRender_zero]
    norm_num
  have h := hclaim 0 c8kvs ⟨"placement-0", "R600", 5 / 2, 0, 1, true⟩ (by simp [c8kvs]) hpl
  have hx := h.2.1 (by intro q hq; simp [c8kvs, pyGet, List.find?] at hq)
  norm_num at hx

/-- C8 (amended): every dict element whose `code` is a nonempty string is
kept (never raising), with id defaulting to `placement-<idx>` only for an
absent/non-string/empty id, `x`/`y`/`rotation` going through Python
`float()` (numbers verbatim, booleans to `1`/`0`, strings parsed when
possible, everything else `0`), and `flipped` taking the Python truthiness
of its raw value. -/
theorem C8_field_defaulting_amended (idx : ℕ) (kvs : List (String × PyVal)) (code : String)
    (hcode : pyGet kvs "code" = PyVal.str code) (hne : code ≠ "") :
    ∃ pl, normalisePlacementItem idx (PyVal.dict kvs) = Option.some pl ∧
      pl.id = (explicitId (PyVal.dict kvs)).getD ("placement-" ++ natRender idx) ∧
      pl.code = code ∧
      pl.x = toFloatPy (pyGet kvs "x") 0 ∧
      pl.y = toFloatPy (pyGet kvs "y") 0 ∧
      pl.rotation = toFloatPy (pyGet kvs "rotation") 0 ∧
      pl.flipped = pyTruthy (pyGet kvs "flipped") ∧
      (∀ q : ℚ, pyGet kvs "x" = PyVal.num q → pl.x = q) ∧
      (∀ b : Bool, pyGet kvs "x" = PyVal.bool b → pl.x = if b then 1 else 0) ∧
      (∀ s : String, pyGet kvs "x" = PyVal.str s → pl.x = (pyParseFloat s).getD 0) ∧
      (pyGet kvs "x" = PyVal.none → pl.x = 0) := by
  have hsome : normalisePlacementItem idx (PyVal.dict kvs) = Option.some
      { id := match pyGet kvs "id" with
          | PyVal.str s => if s = "" then "placement-" ++ natRender idx else s
          | _ => "placement-" ++ natRender idx
        code := code
        x := toFloatPy (pyGet kvs "x") 0
        y := toFloatPy (pyGet kvs "y") 0
        rotation := toFloatPy (pyGet kvs "rotation") 0
        flipped := pyTruthy (pyGet kvs "flipped") } := by
    unfold normalisePlacementItem
    dsimp only
    rw [hcode]
    dsimp only
    rw [if_neg hne]
  refine ⟨_, hsome, normalisePlacementItem_id idx _ _ hsome, rfl, rfl, rfl, rfl, rfl,
    ?_, ?_, ?_, ?_⟩
  · intro q hq
    simp [toFloatPy, hq]
  · intro b hb
    simp [toFloatPy, hb]
  · intro str hstr
    simp [toFloatPy, hstr]
  · intro hnone
    simp [toFloatPy, hnone]

/-- C8, witness: the counterexample element is kept with `x = 5/2`,
`rotation = 1`, `flipped = true`. -/
theorem C8_field_defaulting_witness :
    pyGet c8kvs "code" = PyVal.str "R600" ∧ ("R600" : String) ≠ "" ∧
    ∃ pl, normalisePlacementItem 0 (PyVal.dict c8kvs) = Option.some pl ∧
      pl.id = (explicitId (PyVal.dict c8kvs)).getD ("placement-" ++ natRender 0) ∧
      pl.code = "R600" ∧
      pl.x = toFloatPy (pyGet c8kvs "x") 0 ∧
      pl.y = toFloatPy (pyGet c8kvs "y") 0 ∧
      pl.rotation = toFloatPy (pyGet c8kvs "rotation") 0 ∧
      pl.flipped = pyTruthy (pyGet c8kvs "flipped") ∧
      (∀ q : ℚ, pyGet c8kvs "x" = PyVal.num q → pl.x = q) ∧
      (∀ b : Bool, pyGet c8kvs "x" = PyVal.bool b → pl.x = if b then 1 else 0) ∧
      (∀ s : String, pyGet c8kvs "x" = PyVal.str s → pl.x = (pyParseFloat s).getD 0) ∧
      (pyGet c8kvs "x" = PyVal.none → pl.x = 0) := by
  refine ⟨?_, by decide, ?_⟩
  · simp [c8kvs, pyGet, List.find?]
  · exact C8_field_defaulting_amended 0 c8kvs "R600"
      (by simp [c8kvs, pyGet, List.find?]) (by decide)

/-! ## C3 and C4 -/

def degenerateCurvePiece : TrackPiece :=
  { code := "CURVE0", kind := "curve", length := 0, angle := Option.some 45,
    radius := Option.none, displayLength := 0 }

def degenerateLib : String → Option TrackPiece :=
  fun c => if c = "CURVE0" then Option.some degenerateCurvePiece else Option.none

def degPlacement : Placement :=
  { id := "p0", code := "CURVE0", x := 0, y := 0, rotation := 0, flipped := false }

/-- C3, counterexample: a curve entry with a missing radius falls through
to the straight branch and yields two endpoints, not an empty list. -/
theorem C3_degenerate_curve_counterexample :
    degenerateCurvePiece.kind = "curve" ∧ degenerateCurvePiece.radius = Option.none ∧
    endpointGeometry degenerateLib degPlacement ≠ [] ∧
    (endpointGeometry degenerateLib degPlacement).length = 2 := by
  have hlib : degenerateLib degPlacement.code = Option.some degenerateCurvePiece := rfl
  have hbranch : ¬ curveBranch degenerateCurvePiece := by
    simp [curveBranch, degenerateCurvePiece, optTruthy]
  refine ⟨rfl, rfl, ?_, ?_⟩ <;>
    simp [endpointGeometry, hlib, localEndpoints, hbranch]

/-- C3 (amended): endpoint computation is total and returns exactly two
endpoints for every resolvable code — degenerate curve parameters only
divert it to the straight-piece fallback — and the empty list exactly when
the code does not resolve. -/
theorem C3_degenerate_curve_amended (lib : String → Option TrackPiece) (p : Placement) :
    (∀ piece, lib p.code = Option.some piece → (endpointGeometry lib p).length = 2) ∧
    (lib p.code = Option.none → endpointGeometry lib p = []) := by
  constructor
  · intro piece hpiece
    rw [endpointGeometry, hpiece]
    rw [List.length_map, localEndpoints]
    split
    · simp
    · simp
  · intro hnone
    rw [endpointGeometry, hnone]

def c4placement : Placement :=
  { id := "a", code := "R600", x := 103, y := 57, rotation := 8, flipped := false }

/-- Claim C4 as stated: grid-snapping the piece at `(103, 57)` with
rotation `8°` yields `(100, 60)` with rotation `0°`. -/
def claimC4Statement : Prop :=
  getPlacementById (snapGridClick [c4placement] "a") "a" =
    Option.some { id := "a", code := "R600", x := 100, y := 60, rotation := 0, flipped := false }

lemma snapGridClick_c4 :
    snapGridClick [c4placement] "a" =
      [{ id := "a", code := "R600", x := 100, y := 60, rotation := 15, flipped := false }] := by
  have hget : getPlacementById [c4placement] "a" = Option.some c4placement := by
    simp [getPlacementById, List.find?, c4placement]
  have h1 : jsRound ((103 : ℝ) / 10) = 10 := by unfold jsRound; norm_num
  have h2 : jsRound ((57 : ℝ) / 10) = 6 := by unfold jsRound; norm_num
  have h3 : jsRound ((8 : ℝ) / 15) = 1 := by unfold jsRound; norm_num
  have h4 : normalizeDegrees (jsRound ((8 : ℝ) / 15) * 15 - 8) = 7 := by
    rw [h3]
    exact normalizeDegrees_eq_of _ 7 (by norm_num) (by norm_num) 0 (by norm_num)
  have h5 : jsMod ((8 : ℝ) + 7 + 360) 360 = 15 :=
    jsMod_eq_of_nonneg _ _ _ (by norm_num) (by norm_num) (by norm_num) (by norm_num) 1
      (by norm_num)
  have h6 : jsMod (jsMod (jsRound ((8 : ℝ) / 15) * 15) 360 + 360) 360 = 15 := by
    rw [h3]
    have ha : jsMod ((1 : ℝ) * 15) 360 = 15 :=
      jsMod_eq_of_nonneg _ _ _ (by norm_num) (by norm_num) (by norm_num) (by norm_num) 0
        (by norm_num)
    rw [ha]
    exact jsMod_eq_of_nonneg _ _ _ (by norm_num) (by norm_num) (by norm_num) (by norm_num) 1
      (by norm_num)
  unfold snapGridClick
  rw [hget]
  dsimp only [c4placement]
  rw [h4]
  unfold applySectionTransform
  simp only [List.foldl_cons, List.foldl_nil]
  simp only [updateFirstBy, transformPiece]
  norm_num [h1, h2, h5, h6]

/-- C4, counterexample: rounding rotation `8°` to the 15° step gives `15°`
(`Math.round(8/15) = 1`), not the claimed `0°`. -/
theorem C4_grid_snap_counterexample : ¬ claimC4Statement := by
  unfold claimC4Statement
  rw [snapGridClick_c4]
  simp [getPlacementById, List.find?]

/-- C4 (amended): grid-snapping the piece at `(103, 57)` rotation `8°`
yields `(100, 60)` rotation `15°` — the applied delta is
`(-3, +3, +7°)`. -/
theorem C4_grid_snap_amended :
    getPlacementById (snapGridClick [c4placement] "a") "a" =
      Option.some
        { id := "a", code := "R600", x := 100, y := 60, rotation := 15, flipped := false } ∧
    (100 : ℝ) - c4placement.x = -3 ∧ (60 : ℝ) - c4placement.y = 3 ∧
    (15 : ℝ) - c4placement.rotation = 7 := by
  refine ⟨?_, by norm_num [c4placement], by norm_num [c4placement], by norm_num [c4placement]⟩
  rw [snapGridClick_c4]
  simp [getPlacementById, List.find?]

/-! ## C10: frame property of the section transform -/

/-- How one placement may change under a section transform: identity,
code and flip are preserved, and a placement whose id is outside the
section is untouched. -/
def framePreserved (sectionIds : List String) (q q' : Placement) : Prop :=
  q'.id = q.id ∧ q'.code = q.code ∧ q'.flipped = q.flipped ∧ (q.id ∉ sectionIds → q' = q)

lemma framePreserved_refl (sectionIds : List String) (q : Placement) :
    framePreserved sectionIds q q :=
  ⟨rfl, rfl, rfl, fun _ => rfl⟩

lemma framePreserved_trans (sectionIds : List String) (q q1 q2 : Placement)
    (h1 : framePreserved sectionIds q q1) (h2 : framePreserved sectionIds q1 q2) :
    framePreserved sectionIds q q2 := by
  obtain ⟨ha1, hb1, hc1, hd1⟩ := h1
  obtain ⟨ha2, hb2, hc2, hd2⟩ := h2
  refine ⟨ha2.trans ha1, hb2.trans hb1, hc2.trans hc1, fun hout => ?_⟩
  have he1 := hd1 hout
  have : q1.id ∉ sectionIds := by rw [ha1]; exact hout
  rw [hd2 this, he1]

lemma forall₂_framePreserved_refl (sectionIds : List String) (ps : List Placement) :
    List.Forall₂ (framePreserved sectionIds) ps ps := by
  induction ps with
  | nil => exact List.Forall₂.nil
  | cons q rest ih => exact List.Forall₂.cons (framePreserved_refl _ _) ih

lemma forall₂_framePreserved_trans (sectionIds : List String) :
    ∀ (l1 l2 l3 : List Placement), List.Forall₂ (framePreserved sectionIds) l1 l2 →
      List.Forall₂ (framePreserved sectionIds) l2 l3 →
      List.Forall₂ (framePreserved sectionIds) l1 l3
  | _, _, _, List.Forall₂.nil, List.Forall₂.nil => List.Forall₂.nil
  | _, _, _, List.Forall₂.cons h1 t1, List.Forall₂.cons h2 t2 =>
    List.Forall₂.cons (framePreserved_trans _ _ _ _ h1 h2)
      (forall₂_framePreserved_trans _ _ _ _ t1 t2)

lemma transformPiece_fields (pivot : ℝ × ℝ) (dr dx dy : ℝ) (q : Placement) :
    (transformPiece pivot dr dx dy q).id = q.id ∧
      (transformPiece pivot dr dx dy q).code = q.code ∧
      (transformPiece pivot dr dx dy q).flipped = q.flipped := by
  unfold transformPiece
  dsimp only
  split <;> exact ⟨rfl, rfl, rfl⟩

lemma updateFirstBy_framePreserved (sectionIds : List String) (id : String)
    (hid : id ∈ sectionIds) (f : Placement → Placement)
    (hf : ∀ q, (f q).id = q.id ∧ (f q).code = q.code ∧ (f q).flipped = q.flipped) :
    ∀ ps : List Placement, List.Forall₂ (framePreserved sectionIds) ps (updateFirstBy ps id f)
  | [] => List.Forall₂.nil
  | q :: rest => by
    unfold updateFirstBy
    split
    · rename_i heq
      refine List.Forall₂.cons ⟨(hf q).1, (hf q).2.1, (hf q).2.2, fun hout => ?_⟩
        (forall₂_framePreserved_refl _ _)
      exact absurd (heq ▸ hid) hout
    · exact List.Forall₂.cons (framePreserved_refl _ _)
        (updateFirstBy_framePreserved sectionIds id hid f hf rest)

lemma applySectionTransform_framePreserved (sectionIds : List String) (pivot : ℝ × ℝ)
    (dr dx dy : ℝ) :
    ∀ (ids : List String), (∀ i ∈ ids, i ∈ sectionIds) → ∀ ps : List Placement,
      List.Forall₂ (framePreserved sectionIds) ps
        (ids.foldl (fun acc i => updateFirstBy acc i (transformPiece pivot dr dx dy)) ps)
  | [], _, ps => forall₂_framePreserved_refl _ _
  | i :: rest, h, ps => by
    rw [List.foldl_cons]
    exact forall₂_framePreserved_trans _ _
      (updateFirstBy ps i (transformPiece pivot dr dx dy)) _
      (updateFirstBy_framePreserved sectionIds i (h i (by simp)) _
        (transformPiece_fields pivot dr dx dy) ps)
      (applySectionTransform_framePreserved sectionIds pivot dr dx dy rest
        (fun j hj => h j (by simp [hj])) _)

/-- C10: a section transform changes nothing outside the placements list
(guide circles, polygon, orientation, centre are untouched); placements
outside the id set are unchanged, and placements inside it keep their id,
code and flip state (only position and rotation can change). -/
theorem C10_section_transform_frame (s : BoardState) (sectionIds : List String)
    (pivot : ℝ × ℝ) (deltaRotationDeg deltaX deltaY : ℝ) :
    (stateApplySectionTransform s sectionIds pivot deltaRotationDeg deltaX deltaY).guideCircles =
        s.guideCircles ∧
    (stateApplySectionTransform s sectionIds pivot deltaRotationDeg deltaX deltaY).polygon =
        s.polygon ∧
    (stateApplySectionTransform s sectionIds pivot deltaRotationDeg deltaX
          deltaY).boardOrientation = s.boardOrientation ∧
    (stateApplySectionTransform s sectionIds pivot deltaRotationDeg deltaX
          deltaY).boardCenter = s.boardCenter ∧
    List.Forall₂ (framePreserved sectionIds) s.placements
      (stateApplySectionTransform s sectionIds pivot deltaRotationDeg deltaX
        deltaY).placements :=
  ⟨rfl, rfl, rfl, rfl,
    applySectionTransform_framePreserved sectionIds pivot deltaRotationDeg deltaX deltaY
      sectionIds (fun _ h => h) s.placements⟩

/-! ## C5: the rotation-range invariant -/

def c5item : RenderItem :=
  { id := Option.some "a", code := "R600", x := Option.some 0, y := Option.some 0,
    rotation := Option.some 400, flipped := false }

/-- C5, counterexample: re-rendering from host arguments keeps a numeric
rotation of `400°` verbatim, so the resulting collection violates
`rotation ∈ [0, 360)`. -/
theorem C5_rotation_range_counterexample :
    renderPlacements [c5item] =
      [{ id := "a", code := "R600", x := 0, y := 0, rotation := 400, flipped := false }] ∧
    ¬ (∀ p ∈ renderPlacements [c5item], 0 ≤ p.rotation ∧ p.rotation < 360) := by
  have h : renderPlacements [c5item] =
      [{ id := "a", code := "R600", x := 0, y := 0, rotation := 400, flipped := false }] := by
    simp [renderPlacements, renderPlacementItem, c5item, List.enum, List.enumFrom]
  refine ⟨h, ?_⟩
  rw [h]
  intro hall
  have := (hall (Placement.mk "a" "R600" 0 0 400 false) (by simp)).2
  norm_num at this

lemma renderPlacements_rotation_aux (items : List RenderItem) : ∀ n : ℕ,
    ((items.enumFrom n).map (fun p => renderPlacementItem p.1 p.2)).map Placement.rotation =
      items.map (fun it => it.rotation.getD 0) := by
  induction items with
  | nil => intro n; rfl
  | cons it rest ih =>
    intro n
    rw [List.enumFrom_cons, List.map_cons, List.map_cons, List.map_cons, ih (n + 1)]
    rfl

/-- C5 (amended): the operations that change rotations keep them in
`[0, 360)` — `applySectionTransform` for any rotation delta above `-360°`
(every UI call site passes `±15°`, `0°`, or a `normalizeDegrees` result in
`(-180, 180]`), `rotateBoard` for any delta of at least `-360°`, and
`addPiece` (new pieces start at `0°`) — but deserialisation and
re-rendering copy every numeric payload rotation verbatim, so the invariant
holds after a load if and only if the supplied rotations already lie in
`[0, 360)`. -/
theorem C5_rotation_invariant_amended :
    (∀ (pivot : ℝ × ℝ) (dr dx dy : ℝ) (q : Placement), -360 < dr →
      0 ≤ q.rotation → q.rotation < 360 →
      0 ≤ (transformPiece pivot dr dx dy q).rotation ∧
        (transformPiece pivot dr dx dy q).rotation < 360) ∧
    (∀ (delta : ℝ) (s : BoardState), -360 ≤ delta →
      (∀ q ∈ s.placements, 0 ≤ q.rotation ∧ q.rotation < 360) →
      ∀ q ∈ (rotateBoard delta s).placements, 0 ≤ q.rotation ∧ q.rotation < 360) ∧
    (∀ (lib : String → Option TrackPiece) (ps : List Placement) (nextId : ℕ)
        (centre : ℝ × ℝ) (code : String),
      (∀ q ∈ ps, 0 ≤ q.rotation ∧ q.rotation < 360) →
      ∀ q ∈ addPiece lib ps nextId centre code, 0 ≤ q.rotation ∧ q.rotation < 360) ∧
    (∀ items : List RenderItem,
      (∀ p ∈ renderPlacements items, 0 ≤ p.rotation ∧ p.rotation < 360) ↔
        ∀ it ∈ items, 0 ≤ it.rotation.getD 0 ∧ it.rotation.getD 0 < 360) := by
  refine ⟨?_, ?_, ?_, ?_⟩
  · intro pivot dr dx dy q hdr h0 h1
    unfold transformPiece
    dsimp only
    split
    · have := jsMod_nonneg_mem (q.rotation + dr + 360) 360 (by norm_num) (by linarith)
      exact ⟨this.1, this.2⟩
    · exact ⟨h0, h1⟩
  · intro delta s hdelta hall q hq
    unfold rotateBoard recalculateBoardGeometry at hq
    dsimp only at hq
    rcases List.mem_map.mp hq with ⟨piece, hmem, hpq⟩
    have hp := hall piece hmem
    have := jsMod_nonneg_mem (piece.rotation + delta + 360) 360 (by norm_num)
      (by linarith [hp.1])
    rw [← hpq]
    exact ⟨this.1, this.2⟩
  · intro lib ps nextId centre code hall q hq
    unfold addPiece at hq
    rcases hcode : lib code with _ | piece <;> rw [hcode] at hq
    · exact hall q hq
    · rcases List.mem_append.mp hq with hq | hq
      · exact hall q hq
      · rw [List.mem_singleton] at hq
        rw [hq]
        norm_num
  · intro items
    have hmapped : (renderPlacements items).map Placement.rotation =
        items.map (fun it => it.rotation.getD 0) :=
      renderPlacements_rotation_aux items 0
    constructor
    · intro hall it hit
      have : it.rotation.getD 0 ∈ items.map (fun it => it.rotation.getD 0) :=
        List.mem_map.mpr ⟨it, hit, rfl⟩
      rw [← hmapped] at this
      rcases List.mem_map.mp this with ⟨p, hp, hpr⟩
      rw [← hpr]
      exact hall p hp
    · intro hall p hp
      have : p.rotation ∈ items.map (fun it => it.rotation.getD 0) := by
        rw [← hmapped]
        exact List.mem_map.mpr ⟨p, hp, rfl⟩
      rcases List.mem_map.mp this with ⟨it, hit, hitr⟩
      rw [← hitr]
      exact hall it hit

/-! ## C2: straight-to-straight joins -/

lemma normalizeRadians_self (x : ℝ) (h1 : -π < x) (h2 : x ≤ π) : normalizeRadians x = x :=
  normalizeRadians_eq_of x x h1 h2 0 (by ring)

lemma normalizeRadians_zero : normalizeRadians 0 = 0 :=
  normalizeRadians_self 0 (by linarith [pi_pos]) (by linarith [pi_pos])

lemma normalizeRadians_pi : normalizeRadians π = π :=
  normalizeRadians_self π (by linarith [pi_pos]) le_rfl

lemma normalizeRadians_neg_pi : normalizeRadians (-π) = π :=
  normalizeRadians_eq_of (-π) π (by linarith [pi_pos]) le_rfl (-1) (by ring)

lemma atan2_zero_of_pos (x : ℝ) (hx : 0 < x) : atan2 0 x = 0 := by
  have : (⟨x, 0⟩ : ℂ) = ((x : ℝ) : ℂ) := by
    apply Complex.ext <;> simp
  rw [atan2, this]
  exact Complex.arg_ofReal_of_nonneg hx.le

lemma atan2_pi_of_neg (x : ℝ) (hx : x < 0) : atan2 0 x = π := by
  have : (⟨x, 0⟩ : ℂ) = ((x : ℝ) : ℂ) := by
    apply Complex.ext <;> simp
  rw [atan2, this]
  exact Complex.arg_ofReal_of_neg hx

lemma hypot_self_zero : hypot 0 0 = 0 := by
  unfold hypot
  norm_num

/-- A straight piece (kind not `curve`, or missing curve data) with a
positive effective display length has `radial = tangent` at both of its
endpoints. -/
lemma straight_endpoint_radial_eq_tangent (lib : String → Option TrackPiece) (p : Placement)
    (piece : TrackPiece) (hlib : lib p.code = Option.some piece)
    (hnc : ¬ curveBranch piece) (hlen : 0 < effDisplayLength piece) :
    ∀ e ∈ endpointGeometry lib p, e.radial = e.tangent := by
  intro e he
  rw [endpointGeometry, hlib] at he
  unfold localEndpoints at he
  dsimp only at he
  rw [if_neg hnc] at he
  rcases List.mem_map.mp he with ⟨le, hle, hwe⟩
  rcases List.mem_cons.mp hle with h0 | h0
  · subst h0
    rw [← hwe]
    unfold worldEndpoint
    dsimp only
    rw [atan2_zero_of_pos _ (by linarith)]
  · rw [List.mem_singleton] at h0
    subst h0
    rw [← hwe]
    unfold worldEndpoint
    dsimp only
    rw [atan2_pi_of_neg _ (by linarith)]

def R600piece : TrackPiece :=
  { code := "R600", kind := "straight", length := 168, angle := Option.none,
    radius := Option.none, displayLength := 168 }

def r600lib : String → Option TrackPiece :=
  fun c => if c = "R600" then Option.some R600piece else Option.none

def r600A : Placement :=
  { id := "p1", code := "R600", x := 0, y := 0, rotation := 0, flipped := false }

def r600B : Placement :=
  { id := "p2", code := "R600", x := 168, y := 0, rotation := 180, flipped := false }

lemma r600_not_curve : ¬ curveBranch R600piece := by
  intro h
  exact absurd h.1 (by decide)

lemma r600_effLen : effDisplayLength R600piece = 168 := by
  unfold effDisplayLength R600piece
  norm_num

lemma r600A_geometry :
    endpointGeometry r600lib r600A =
      [worldEndpoint r600A ((84, 0), 0), worldEndpoint r600A ((-84, 0), π)] := by
  unfold endpointGeometry
  rw [show r600lib r600A.code = Option.some R600piece from rfl]
  unfold localEndpoints
  dsimp only
  rw [if_neg r600_not_curve]
  rw [r600_effLen]
  norm_num

lemma r600B_geometry :
    endpointGeometry r600lib r600B =
      [worldEndpoint r600B ((84, 0), 0), worldEndpoint r600B ((-84, 0), π)] := by
  unfold endpointGeometry
  rw [show r600lib r600B.code = Option.some R600piece from rfl]
  unfold localEndpoints
  dsimp only
  rw [if_neg r600_not_curve]
  rw [r600_effLen]
  norm_num

lemma toRadians_zero : toRadians 0 = 0 := by
  unfold toRadians
  ring

lemma toRadians_180 : toRadians 180 = π := by
  unfold toRadians
  ring

lemma normalizeRadians_two_pi : normalizeRadians (π + π) = 0 :=
  normalizeRadians_eq_of _ 0 (by linarith [pi_pos]) (by linarith [pi_pos]) 1 (by ring)

lemma straight_not_curveBranch (piece : TrackPiece) (hk : piece.kind = "straight") :
    ¬ curveBranch piece := by
  intro hc
  rw [curveBranch, hk] at hc
  exact absurd hc.1 (by decide)

lemma r600A_triples :
    (endpointGeometry r600lib r600A).map (fun e => (e.x, e.y, e.tangent)) =
      [(84, 0, 0), (-84, 0, π)] := by
  rw [r600A_geometry]
  unfold worldEndpoint rotatePoint r600A
  dsimp only
  rw [toRadians_zero]
  norm_num [normalizeRadians_zero, normalizeRadians_pi]

lemma r600B_triples :
    (endpointGeometry r600lib r600B).map (fun e => (e.x, e.y, e.tangent)) =
      [(84, 0, π), (252, 0, 0)] := by
  rw [r600B_geometry]
  unfold worldEndpoint rotatePoint r600B
  dsimp only
  rw [toRadians_180]
  norm_num [Real.cos_pi, Real.sin_pi, normalizeRadians_pi, normalizeRadians_two_pi]

lemma r600_eA0_vals :
    (worldEndpoint r600A ((84, 0), 0)).x = 84 ∧ (worldEndpoint r600A ((84, 0), 0)).y = 0 ∧
      (worldEndpoint r600A ((84, 0), 0)).tangent = 0 := by
  unfold worldEndpoint rotatePoint r600A
  dsimp only
  rw [toRadians_zero]
  norm_num [normalizeRadians_zero]

lemma r600_eB0_vals :
    (worldEndpoint r600B ((84, 0), 0)).x = 84 ∧ (worldEndpoint r600B ((84, 0), 0)).y = 0 ∧
      (worldEndpoint r600B ((84, 0), 0)).tangent = π := by
  unfold worldEndpoint rotatePoint r600B
  dsimp only
  rw [toRadians_180]
  norm_num [Real.cos_pi, Real.sin_pi, normalizeRadians_pi]

/-- C2: two positive-length straight pieces with coincident endpoint
positions are connected when the endpoint tangents differ by exactly `π`
and not connected when they differ by `π/2`; in particular the two `R600`
placements of the spec share the point `(84, 0)` with tangents `{0, π}` and
are judged connected. -/
theorem C2_straight_to_straight_join :
    (∀ (lib : String → Option TrackPiece) (pA pB : Placement) (pieceA pieceB : TrackPiece)
        (eA eB : Endpoint),
        lib pA.code = Option.some pieceA → lib pB.code = Option.some pieceB →
        pieceA.kind = "straight" → pieceB.kind = "straight" →
        0 < effDisplayLength pieceA → 0 < effDisplayLength pieceB →
        eA ∈ endpointGeometry lib pA → eB ∈ endpointGeometry lib pB →
        eA.x = eB.x → eA.y = eB.y →
        ((∃ k : ℤ, eA.tangent - eB.tangent = π + 2 * π * k) →
          endpointsAreConnected eA eB) ∧
        (((∃ k : ℤ, eA.tangent - eB.tangent = π / 2 + 2 * π * k) ∨
            (∃ k : ℤ, eA.tangent - eB.tangent = -(π / 2) + 2 * π * k)) →
          ¬ endpointsAreConnected eA eB)) ∧
    (endpointGeometry r600lib r600A).map (fun e => (e.x, e.y, e.tangent)) =
        [(84, 0, 0), (-84, 0, π)] ∧
    (endpointGeometry r600lib r600B).map (fun e => (e.x, e.y, e.tangent)) =
        [(84, 0, π), (252, 0, 0)] ∧
    worldEndpoint r600A ((84, 0), 0) ∈ endpointGeometry r600lib r600A ∧
    worldEndpoint r600B ((84, 0), 0) ∈ endpointGeometry r600lib r600B ∧
    endpointsAreConnected (worldEndpoint r600A ((84, 0), 0))
      (worldEndpoint r600B ((84, 0), 0)) := by
  refine ⟨?_, r600A_triples, r600B_triples, ?_, ?_, ?_⟩
  · intro lib pA pB pieceA pieceB eA eB hlibA hlibB hkA hkB hlenA hlenB heA heB hx hy
    constructor
    · rintro ⟨k, hk⟩
      constructor
      · rw [hx, hy]
        simp only [sub_self]
        rw [hypot_self_zero]
        unfold CONNECTION_TOLERANCE_MM
        norm_num
      · left
        rw [normalizeRadians_eq_of _ π (by linarith [pi_pos]) le_rfl k (by linarith)]
        rw [abs_of_pos pi_pos, sub_self, abs_zero]
        unfold ANGLE_TOLERANCE_RAD
        positivity
    · intro hcase hconn
      obtain ⟨hdist, hgate⟩ := hconn
      have htd : |normalizeRadians (eA.tangent - eB.tangent)| = π / 2 := by
        rcases hcase with ⟨k, hk⟩ | ⟨k, hk⟩
        · rw [normalizeRadians_eq_of _ (π / 2) (by linarith [pi_pos]) (by linarith [pi_pos])
            k (by linarith)]
          exact abs_of_pos (by positivity)
        · rw [normalizeRadians_eq_of _ (-(π / 2)) (by linarith [pi_pos])
            (by linarith [pi_pos]) k (by linarith)]
          rw [abs_neg]
          exact abs_of_pos (by positivity)
      have hrA := straight_endpoint_radial_eq_tangent lib pA pieceA hlibA
        (straight_not_curveBranch pieceA hkA) hlenA eA heA
      have hrB := straight_endpoint_radial_eq_tangent lib pB pieceB hlibB
        (straight_not_curveBranch pieceB hkB) hlenB eB heB
      rcases hgate with hopp | hali
      · rw [htd] at hopp
        have heq : π / 2 - π = -(π / 2) := by ring
        rw [heq, abs_neg, abs_of_pos (by positivity)] at hopp
        unfold ANGLE_TOLERANCE_RAD at hopp
        nlinarith [pi_pos]
      · rw [hrA, hrB, htd] at hali
        unfold ANGLE_TOLERANCE_RAD at hali
        nlinarith [pi_pos]
  · rw [r600A_geometry]
    simp
  · rw [r600B_geometry]
    simp
  · obtain ⟨hax, hay, hat⟩ := r600_eA0_vals
    obtain ⟨hbx, hby, hbt⟩ := r600_eB0_vals
    constructor
    · rw [hax, hay, hbx, hby]
      simp only [sub_self]
      rw [hypot_self_zero]
      unfold CONNECTION_TOLERANCE_MM
      norm_num
    · left
      rw [hat, hbt]
      rw [show (0 : ℝ) - π = -π by ring, normalizeRadians_neg_pi]
      rw [abs_of_pos pi_pos, sub_self, abs_zero]
      unfold ANGLE_TOLERANCE_RAD
      positivity

/-! ## C9: full-turn invariance of the board rotation -/

lemma foldl_min_map_sub (a : ℝ) : ∀ (l : List ℝ) (x : ℝ),
    ((l.map (fun v => a - v)).foldl min (a - x)) = a - l.foldl max x
  | [], x => rfl
  | v :: l, x => by
    rw [List.map_cons, List.foldl_cons, List.foldl_cons, min_sub_sub_left,
      foldl_min_map_sub a l (max x v)]

lemma foldl_max_map_sub (a : ℝ) : ∀ (l : List ℝ) (x : ℝ),
    ((l.map (fun v => a - v)).foldl max (a - x)) = a - l.foldl min x
  | [], x => rfl
  | v :: l, x => by
    rw [List.map_cons, List.foldl_cons, List.foldl_cons, max_sub_sub_left,
      foldl_max_map_sub a l (min x v)]

lemma foldl_min_map_add (a : ℝ) : ∀ (l : List ℝ) (x : ℝ),
    ((l.map (fun v => a + v)).foldl min (a + x)) = a + l.foldl min x
  | [], x => rfl
  | v :: l, x => by
    rw [List.map_cons, List.foldl_cons, List.foldl_cons, min_add_add_left,
      foldl_min_map_add a l (min x v)]

lemma foldl_max_map_add (a : ℝ) : ∀ (l : List ℝ) (x : ℝ),
    ((l.map (fun v => a + v)).foldl max (a + x)) = a + l.foldl max x
  | [], x => rfl
  | v :: l, x => by
    rw [List.map_cons, List.foldl_cons, List.foldl_cons, max_add_add_left,
      foldl_max_map_add a l (max x v)]

lemma listMin_map_sub (a : ℝ) (l : List ℝ) (hl : l ≠ []) :
    listMin (l.map (fun v => a - v)) = a - listMax l := by
  rcases l with _ | ⟨x, xs⟩
  · exact absurd rfl hl
  · rw [List.map_cons]
    exact foldl_min_map_sub a xs x

lemma listMax_map_sub (a : ℝ) (l : List ℝ) (hl : l ≠ []) :
    listMax (l.map (fun v => a - v)) = a - listMin l := by
  rcases l with _ | ⟨x, xs⟩
  · exact absurd rfl hl
  · rw [List.map_cons]
    exact foldl_max_map_sub a xs x

lemma listMin_map_add (a : ℝ) (l : List ℝ) (hl : l ≠ []) :
    listMin (l.map (fun v => a + v)) = a + listMin l := by
  rcases l with _ | ⟨x, xs⟩
  · exact absurd rfl hl
  · rw [List.map_cons]
    exact foldl_min_map_add a xs x

lemma listMax_map_add (a : ℝ) (l : List ℝ) (hl : l ≠ []) :
    listMax (l.map (fun v => a + v)) = a + listMax l := by
  rcases l with _ | ⟨x, xs⟩
  · exact absurd rfl hl
  · rw [List.map_cons]
    exact foldl_max_map_add a xs x

/-- Rotating a nonempty polygon by a quarter turn about its bounding-box
centre leaves the bounding-box centre fixed. -/
lemma bboxCenter_quarter_turn (poly : List (ℝ × ℝ)) (hne : poly ≠ [])
    (c : ℝ × ℝ) (hc : c = bboxCenter poly) :
    bboxCenter (poly.map (fun pt => (c.1 + c.2 - pt.2, c.2 - c.1 + pt.1))) = c := by
  have hxs : (poly.map (fun pt => (c.1 + c.2 - pt.2, c.2 - c.1 + pt.1))).map Prod.fst =
      (poly.map Prod.snd).map (fun v => (c.1 + c.2) - v) := by
    rw [List.map_map, List.map_map]
    rfl
  have hys : (poly.map (fun pt => (c.1 + c.2 - pt.2, c.2 - c.1 + pt.1))).map Prod.snd =
      (poly.map Prod.fst).map (fun v => (c.2 - c.1) + v) := by
    rw [List.map_map, List.map_map]
    rfl
  have hnefst : poly.map Prod.fst ≠ [] := by
    intro h
    exact hne (List.map_eq_nil_iff.mp h)
  have hnesnd : poly.map Prod.snd ≠ [] := by
    intro h
    exact hne (List.map_eq_nil_iff.mp h)
  unfold bboxCenter
  rw [hxs, hys, listMin_map_sub _ _ hnesnd, listMax_map_sub _ _ hnesnd,
    listMin_map_add _ _ hnefst, listMax_map_add _ _ hnefst]
  unfold bboxCenter at hc
  have h1 : c.1 = (listMin (poly.map Prod.fst) + listMax (poly.map Prod.fst)) / 2 :=
    congrArg Prod.fst hc
  have h2 : c.2 = (listMin (poly.map Prod.snd) + listMax (poly.map Prod.snd)) / 2 :=
    congrArg Prod.snd hc
  apply Prod.ext
  · dsimp only
    rw [h1, h2]
    ring
  · dsimp only
    rw [h1, h2]
    ring

lemma toRadians_90 : toRadians 90 = π / 2 := by
  unfold toRadians
  ring

lemma toRadians_360 : toRadians 360 = 2 * π := by
  unfold toRadians
  ring

lemma rotateBoard90_desc (poly : List (ℝ × ℝ)) (ps : List Placement)
    (gcs : List GuideCircle) (o : ℝ) (c : ℝ × ℝ) (hne : poly ≠ []) :
    rotateBoard 90 ⟨poly, ps, gcs, o, c⟩ =
      ⟨poly.map (fun pt => (c.1 + c.2 - pt.2, c.2 - c.1 + pt.1)),
       ps.map (fun q =>
         { q with
           x := c.1 + c.2 - q.y
           y := c.2 - c.1 + q.x
           rotation := jsMod (q.rotation + 90 + 360) 360 }),
       gcs.map (fun gc => { gc with x := c.1 + c.2 - gc.y, y := c.2 - c.1 + gc.x }),
       jsMod (o + 90) 360,
       bboxCenter (poly.map (fun pt => (c.1 + c.2 - pt.2, c.2 - c.1 + pt.1)))⟩ := by
  have hcos : Real.cos (toRadians 90) = 0 := by
    rw [toRadians_90]
    exact Real.cos_pi_div_two
  have hsin : Real.sin (toRadians 90) = 1 := by
    rw [toRadians_90]
    exact Real.sin_pi_div_two
  unfold rotateBoard recalculateBoardGeometry rotatePoint
  dsimp only
  have hfunp : ∀ pt ∈ poly,
      ((c.1 + ((pt.1 - c.1) * Real.cos (toRadians 90) - (pt.2 - c.2) * Real.sin (toRadians 90)),
        c.2 + ((pt.1 - c.1) * Real.sin (toRadians 90) + (pt.2 - c.2) * Real.cos (toRadians 90)))
        : ℝ × ℝ) = (c.1 + c.2 - pt.2, c.2 - c.1 + pt.1) := by
    intro pt _
    rw [hcos, hsin]
    exact Prod.ext (by ring) (by ring)
  have hfunq : ∀ q ∈ ps,
      ({ q with
          x := c.1 + ((q.x - c.1) * Real.cos (toRadians 90) -
            (q.y - c.2) * Real.sin (toRadians 90))
          y := c.2 + ((q.x - c.1) * Real.sin (toRadians 90) +
            (q.y - c.2) * Real.cos (toRadians 90))
          rotation := jsMod (q.rotation + 90 + 360) 360 } : Placement) =
        { q with
          x := c.1 + c.2 - q.y
          y := c.2 - c.1 + q.x
          rotation := jsMod (q.rotation + 90 + 360) 360 } := by
    intro q _
    rw [hcos, hsin]
    simp only [Placement.mk.injEq]
    refine ⟨by trivial, by trivial, by ring, by ring, by trivial, by trivial⟩
  have hfung : ∀ gc ∈ gcs,
      ({ gc with
          x := c.1 + ((gc.x - c.1) * Real.cos (toRadians 90) -
            (gc.y - c.2) * Real.sin (toRadians 90))
          y := c.2 + ((gc.x - c.1) * Real.sin (toRadians 90) +
            (gc.y - c.2) * Real.cos (toRadians 90)) } : GuideCircle) =
        { gc with x := c.1 + c.2 - gc.y, y := c.2 - c.1 + gc.x } := by
    intro gc _
    rw [hcos, hsin]
    simp only [GuideCircle.mk.injEq]
    refine ⟨by trivial, by trivial, by ring, by ring, by trivial, by trivial⟩
  rw [List.map_congr_left hfunp, List.map_congr_left hfunq, List.map_congr_left hfung]
  rw [if_neg (by
    intro h
    exact hne (List.map_eq_nil_iff.mp h))]

lemma single_360_rotation (r : ℝ) (h0 : 0 ≤ r) (h1 : r < 360) :
    jsMod (r + 360 + 360) 360 = r :=
  jsMod_eq_of_nonneg _ r 360 (by norm_num) (by linarith) h0 h1 2 (by ring)

lemma single_360_orientation (o : ℝ) (h0 : 0 ≤ o) (h1 : o < 360) :
    jsMod (o + 360) 360 = o :=
  jsMod_eq_of_nonneg _ o 360 (by norm_num) (by linarith) h0 h1 1 (by ring)

lemma four_quarter_rotations (r : ℝ) (h0 : 0 ≤ r) (h1 : r < 360) :
    jsMod (jsMod (jsMod (jsMod (r + 90 + 360) 360 + 90 + 360) 360 + 90 + 360) 360
      + 90 + 360) 360 = r := by
  obtain ⟨k1, hk1⟩ := jsMod_int_sub (r + 90 + 360) 360
  obtain ⟨hm1, hm1'⟩ := jsMod_nonneg_mem (r + 90 + 360) 360 (by norm_num) (by linarith)
  obtain ⟨k2, hk2⟩ := jsMod_int_sub (jsMod (r + 90 + 360) 360 + 90 + 360) 360
  obtain ⟨hm2, hm2'⟩ := jsMod_nonneg_mem (jsMod (r + 90 + 360) 360 + 90 + 360) 360
    (by norm_num) (by linarith)
  obtain ⟨k3, hk3⟩ := jsMod_int_sub
    (jsMod (jsMod (r + 90 + 360) 360 + 90 + 360) 360 + 90 + 360) 360
  obtain ⟨hm3, hm3'⟩ := jsMod_nonneg_mem
    (jsMod (jsMod (r + 90 + 360) 360 + 90 + 360) 360 + 90 + 360) 360
    (by norm_num) (by linarith)
  obtain ⟨k4, hk4⟩ := jsMod_int_sub
    (jsMod (jsMod (jsMod (r + 90 + 360) 360 + 90 + 360) 360 + 90 + 360) 360 + 90 + 360) 360
  obtain ⟨hm4, hm4'⟩ := jsMod_nonneg_mem
    (jsMod (jsMod (jsMod (r + 90 + 360) 360 + 90 + 360) 360 + 90 + 360) 360 + 90 + 360) 360
    (by norm_num) (by linarith)
  refine mod_rep_unique _ r 360 (by norm_num) hm4 hm4' h0 h1 (5 - (k1 + k2 + k3 + k4)) ?_
  rw [hk4, hk3, hk2, hk1]
  push_cast
  ring

lemma four_quarter_orientation (o : ℝ) (h0 : 0 ≤ o) (h1 : o < 360) :
    jsMod (jsMod (jsMod (jsMod (o + 90) 360 + 90) 360 + 90) 360 + 90) 360 = o := by
  obtain ⟨k1, hk1⟩ := jsMod_int_sub (o + 90) 360
  obtain ⟨hm1, hm1'⟩ := jsMod_nonneg_mem (o + 90) 360 (by norm_num) (by linarith)
  obtain ⟨k2, hk2⟩ := jsMod_int_sub (jsMod (o + 90) 360 + 90) 360
  obtain ⟨hm2, hm2'⟩ := jsMod_nonneg_mem (jsMod (o + 90) 360 + 90) 360
    (by norm_num) (by linarith)
  obtain ⟨k3, hk3⟩ := jsMod_int_sub (jsMod (jsMod (o + 90) 360 + 90) 360 + 90) 360
  obtain ⟨hm3, hm3'⟩ := jsMod_nonneg_mem (jsMod (jsMod (o + 90) 360 + 90) 360 + 90) 360
    (by norm_num) (by linarith)
  obtain ⟨k4, hk4⟩ := jsMod_int_sub
    (jsMod (jsMod (jsMod (o + 90) 360 + 90) 360 + 90) 360 + 90) 360
  obtain ⟨hm4, hm4'⟩ := jsMod_nonneg_mem
    (jsMod (jsMod (jsMod (o + 90) 360 + 90) 360 + 90) 360 + 90) 360
    (by norm_num) (by linarith)
  refine mod_rep_unique _ o 360 (by norm_num) hm4 hm4' h0 h1 (1 - (k1 + k2 + k3 + k4)) ?_
  rw [hk4, hk3, hk2, hk1]
  push_cast
  ring

lemma rotateBoard360_id (poly : List (ℝ × ℝ)) (ps : List Placement)
    (gcs : List GuideCircle) (o : ℝ) (c : ℝ × ℝ) (hne : poly ≠ [])
    (hc : c = bboxCenter poly)
    (hrot : ∀ q ∈ ps, 0 ≤ q.rotation ∧ q.rotation < 360)
    (ho0 : 0 ≤ o) (ho1 : o < 360) :
    rotateBoard 360 ⟨poly, ps, gcs, o, c⟩ = ⟨poly, ps, gcs, o, c⟩ := by
  have hcos : Real.cos (toRadians 360) = 1 := by
    rw [toRadians_360]
    exact Real.cos_two_pi
  have hsin : Real.sin (toRadians 360) = 0 := by
    rw [toRadians_360]
    exact Real.sin_two_pi
  unfold rotateBoard recalculateBoardGeometry rotatePoint
  dsimp only
  have hfunp : ∀ pt ∈ poly,
      ((c.1 + ((pt.1 - c.1) * Real.cos (toRadians 360) - (pt.2 - c.2) *
          Real.sin (toRadians 360)),
        c.2 + ((pt.1 - c.1) * Real.sin (toRadians 360) + (pt.2 - c.2) *
          Real.cos (toRadians 360))) : ℝ × ℝ) = id pt := by
    intro pt _
    rw [hcos, hsin]
    exact Prod.ext (by dsimp; ring) (by dsimp; ring)
  have hfunq : ∀ q ∈ ps,
      ({ q with
          x := c.1 + ((q.x - c.1) * Real.cos (toRadians 360) -
            (q.y - c.2) * Real.sin (toRadians 360))
          y := c.2 + ((q.x - c.1) * Real.sin (toRadians 360) +
            (q.y - c.2) * Real.cos (toRadians 360))
          rotation := jsMod (q.rotation + 360 + 360) 360 } : Placement) = id q := by
    intro q hq
    obtain ⟨hq0, hq1⟩ := hrot q hq
    rw [hcos, hsin]
    rcases q with ⟨i, cd, x, y, r, f⟩
    simp only [id_eq, Placement.mk.injEq]
    refine ⟨by trivial, by trivial, by ring, by ring, ?_, by trivial⟩
    exact single_360_rotation r hq0 hq1
  have hfung : ∀ gc ∈ gcs,
      ({ gc with
          x := c.1 + ((gc.x - c.1) * Real.cos (toRadians 360) -
            (gc.y - c.2) * Real.sin (toRadians 360))
          y := c.2 + ((gc.x - c.1) * Real.sin (toRadians 360) +
            (gc.y - c.2) * Real.cos (toRadians 360)) } : GuideCircle) = id gc := by
    intro gc _
    rw [hcos, hsin]
    rcases gc with ⟨i, rad, x, y, col, lab⟩
    simp only [id_eq, GuideCircle.mk.injEq]
    refine ⟨by trivial, by trivial, by ring, by ring, by trivial, by trivial⟩
  rw [List.map_congr_left hfunp, List.map_congr_left hfunq, List.map_congr_left hfung]
  rw [List.map_id, List.map_id, List.map_id]
  rw [if_neg hne, single_360_orientation o ho0 ho1, ← hc]

/-- C9: with a consistent board centre and normalized rotations and
orientation, `rotateBoard 360` is the identity on the whole state, and four
`rotateBoard 90` applications equal one `rotateBoard 360`. -/
theorem C9_full_turn_invariance (s : BoardState)
    (hne : s.polygon ≠ []) (hc : s.boardCenter = bboxCenter s.polygon)
    (hrot : ∀ q ∈ s.placements, 0 ≤ q.rotation ∧ q.rotation < 360)
    (ho0 : 0 ≤ s.boardOrientation) (ho1 : s.boardOrientation < 360) :
    rotateBoard 360 s = s ∧
      rotateBoard 90 (rotateBoard 90 (rotateBoard 90 (rotateBoard 90 s))) =
        rotateBoard 360 s := by
  rcases s with ⟨poly, ps, gcs, o, c⟩
  dsimp only at hne hc hrot ho0 ho1
  have hA := rotateBoard360_id poly ps gcs o c hne hc hrot ho0 ho1
  refine ⟨hA, ?_⟩
  rw [hA]
  have hb1 := bboxCenter_quarter_turn poly hne c hc
  have hne1 : poly.map (fun pt => (c.1 + c.2 - pt.2, c.2 - c.1 + pt.1)) ≠ [] :=
    fun h => hne (List.map_eq_nil_iff.mp h)
  have hb2 := bboxCenter_quarter_turn _ hne1 c hb1.symm
  have hne2 : (poly.map (fun pt => (c.1 + c.2 - pt.2, c.2 - c.1 + pt.1))).map
      (fun pt => (c.1 + c.2 - pt.2, c.2 - c.1 + pt.1)) ≠ [] :=
    fun h => hne1 (List.map_eq_nil_iff.mp h)
  have hb3 := bboxCenter_quarter_turn _ hne2 c hb2.symm
  have hne3 : ((poly.map (fun pt => (c.1 + c.2 - pt.2, c.2 - c.1 + pt.1))).map
      (fun pt => (c.1 + c.2 - pt.2, c.2 - c.1 + pt.1))).map
      (fun pt => (c.1 + c.2 - pt.2, c.2 - c.1 + pt.1)) ≠ [] :=
    fun h => hne2 (List.map_eq_nil_iff.mp h)
  have hb4 := bboxCenter_quarter_turn _ hne3 c hb3.symm
  rw [rotateBoard90_desc poly ps gcs o c hne, hb1,
    rotateBoard90_desc _ _ _ _ _ hne1, hb2,
    rotateBoard90_desc _ _ _ _ _ hne2, hb3,
    rotateBoard90_desc _ _ _ _ _ hne3, hb4]
  simp only [BoardState.mk.injEq]
  refine ⟨?_, ?_, ?_, ?_, by trivial⟩
  · rw [List.map_map, List.map_map, List.map_map]
    have hid : ∀ pt ∈ poly,
        ((((fun pt => ((c.1 + c.2 - pt.2 : ℝ), (c.2 - c.1 + pt.1 : ℝ))) ∘
          (fun pt => (c.1 + c.2 - pt.2, c.2 - c.1 + pt.1))) ∘
            (fun pt => (c.1 + c.2 - pt.2, c.2 - c.1 + pt.1))) ∘
              (fun pt => (c.1 + c.2 - pt.2, c.2 - c.1 + pt.1))) pt = id pt := by
      intro pt _
      simp only [Function.comp_apply, id_eq]
      exact Prod.ext (by dsimp; ring) (by dsimp; ring)
    rw [List.map_congr_left hid, List.map_id]
  · rw [List.map_map, List.map_map, List.map_map]
    have hid : ∀ q ∈ ps,
        ((((fun q : Placement =>
          { q with
            x := c.1 + c.2 - q.y
            y := c.2 - c.1 + q.x
            rotation := jsMod (q.rotation + 90 + 360) 360 }) ∘
          (fun q : Placement =>
            { q with
              x := c.1 + c.2 - q.y
              y := c.2 - c.1 + q.x
              rotation := jsMod (q.rotation + 90 + 360) 360 })) ∘
            (fun q : Placement =>
              { q with
                x := c.1 + c.2 - q.y
                y := c.2 - c.1 + q.x
                rotation := jsMod (q.rotation + 90 + 360) 360 })) ∘
              (fun q : Placement =>
                { q with
                  x := c.1 + c.2 - q.y
                  y := c.2 - c.1 + q.x
                  rotation := jsMod (q.rotation + 90 + 360) 360 })) q = id q := by
      intro q hq
      obtain ⟨h0, h1⟩ := hrot q hq
      rcases q with ⟨i, cd, x, y, r, f⟩
      simp only [Function.comp_apply, id_eq, Placement.mk.injEq]
      dsimp only at h0 h1
      refine ⟨by trivial, by trivial, by ring, by ring, ?_, by trivial⟩
      exact four_quarter_rotations r h0 h1
    rw [List.map_congr_left hid, List.map_id]
  · rw [List.map_map, List.map_map, List.map_map]
    have hid : ∀ gc ∈ gcs,
        ((((fun gc : GuideCircle =>
          { gc with x := c.1 + c.2 - gc.y, y := c.2 - c.1 + gc.x }) ∘
          (fun gc : GuideCircle => { gc with x := c.1 + c.2 - gc.y, y := c.2 - c.1 + gc.x })) ∘
            (fun gc : GuideCircle =>
              { gc with x := c.1 + c.2 - gc.y, y := c.2 - c.1 + gc.x })) ∘
              (fun gc : GuideCircle =>
                { gc with x := c.1 + c.2 - gc.y, y := c.2 - c.1 + gc.x })) gc = id gc := by
      intro gc _
      rcases gc with ⟨i, rad, x, y, col, lab⟩
      simp only [Function.comp_apply, id_eq, GuideCircle.mk.injEq]
      refine ⟨by trivial, by trivial, by ring, by ring, by trivial, by trivial⟩
    rw [List.map_congr_left hid, List.map_id]
  · exact four_quarter_orientation o ho0 ho1

def c9state : BoardState :=
  { polygon := [(0, 0), (100, 0), (100, 50), (0, 50)]
    placements := [Placement.mk "a" "R600" 10 20 30 false]
    guideCircles := []
    boardOrientation := 45
    boardCenter := (50, 25) }

/-- C9, witness: a concrete consistent board state on which a full turn is
the identity. -/
theorem C9_full_turn_witness :
    (c9state.polygon ≠ [] ∧ c9state.boardCenter = bboxCenter c9state.polygon ∧
      (∀ q ∈ c9state.placements, 0 ≤ q.rotation ∧ q.rotation < 360) ∧
      0 ≤ c9state.boardOrientation ∧ c9state.boardOrientation < 360) ∧
    rotateBoard 360 c9state = c9state := by
  have h1 : c9state.polygon ≠ [] := by simp [c9state]
  have h2 : c9state.boardCenter = bboxCenter c9state.polygon := by
    unfold c9state bboxCenter listMin listMax
    norm_num
  have h3 : ∀ q ∈ c9state.placements, 0 ≤ q.rotation ∧ q.rotation < 360 := by
    intro q hq
    simp [c9state] at hq
    rw [hq]
    norm_num
  have h4 : (0 : ℝ) ≤ c9state.boardOrientation := by norm_num [c9state]
  have h5 : c9state.boardOrientation < 360 := by norm_num [c9state]
  exact ⟨⟨h1, h2, h3, h4, h5⟩,
    (C9_full_turn_invariance c9state h1 h2 h3 h4 h5).1⟩

/-! ## C1: the snap round-trip -/

/-- Whatever the best-candidate fold returns was one of the candidates (or
the initial accumulator). -/
lemma snapBest_foldl_mem : ∀ (l : List SnapCandidate) (acc : Option SnapCandidate)
    (b : SnapCandidate), l.foldl snapBestStep acc = Option.some b →
      b ∈ l ∨ acc = Option.some b
  | [], acc, b, h => Or.inr h
  | c :: rest, acc, b, h => by
    rw [List.foldl_cons] at h
    rcases snapBest_foldl_mem rest (snapBestStep acc c) b h with h1 | h1
    · exact Or.inl (List.mem_cons_of_mem c h1)
    · rcases acc with _ | a
      · have hcb : c = b := by simpa [snapBestStep] using h1
        exact Or.inl (hcb ▸ List.mem_cons_self c rest)
      · rw [show snapBestStep (Option.some a) c =
            (if c.distance < a.distance - 1 / 1000000 ∨
                (|c.distance - a.distance| < 1 / 1000000 ∧
                  c.rotationMagnitude < a.rotationMagnitude - 1 / 1000000) then
              Option.some c
            else Option.some a) from rfl] at h1
        split at h1 <;> rw [Option.some.injEq] at h1
        · exact Or.inl (h1 ▸ List.mem_cons_self c rest)
        · exact Or.inr (by rw [h1])

/-- Decompose membership in the candidate list of one other placement. -/
lemma mem_snapCandidatesFor (lib : String → Option TrackPiece) (p other : Placement)
    (c : SnapCandidate) (h : c ∈ snapCandidatesFor lib p other) :
    other.id ≠ p.id ∧
      ∃ endpoint ∈ endpointGeometry lib p, ∃ target ∈ endpointGeometry lib other,
        ∃ desiredTangent : ℝ,
          snapCandidate p endpoint target desiredTangent = Option.some c := by
  unfold snapCandidatesFor at h
  by_cases hid : other.id = p.id
  · rw [if_pos hid] at h
    exact absurd h (by simp)
  · rw [if_neg hid] at h
    refine ⟨hid, ?_⟩
    rcases List.mem_flatMap.mp h with ⟨endpoint, hep, h2⟩
    rcases List.mem_flatMap.mp h2 with ⟨target, htg, h3⟩
    refine ⟨endpoint, hep, target, htg, ?_⟩
    by_cases hdist : hypot (endpoint.x - target.x) (endpoint.y - target.y) > SNAP_DISTANCE_MM
    · rw [if_pos hdist] at h3
      exact absurd h3 (by simp)
    · rw [if_neg hdist] at h3
      rcases List.mem_filterMap.mp h3 with ⟨dt, _, hdt⟩
      exact ⟨dt, hdt⟩

/-- What a validated candidate records: its rotation delta, and the
translation that puts the rotated local endpoint exactly onto the target. -/
lemma snapCandidate_some (p : Placement) (endpoint target : Endpoint)
    (dt : ℝ) (c : SnapCandidate) (h : snapCandidate p endpoint target dt = Option.some c) :
    c.deltaX = (target.x - (rotatePoint endpoint.localPosition.1 endpoint.localPosition.2
        (toRadians (jsMod (p.rotation + c.deltaRotationDeg + 360) 360))).1) - p.x ∧
      c.deltaY = (target.y - (rotatePoint endpoint.localPosition.1 endpoint.localPosition.2
        (toRadians (jsMod (p.rotation + c.deltaRotationDeg + 360) 360))).2) - p.y := by
  unfold snapCandidate at h
  dsimp only at h
  split at h
  · rw [Option.some.injEq] at h
    subst h
    exact ⟨rfl, rfl⟩
  · exact absurd h (by simp)

/-- Membership in the endpoint list names a library piece and a local
endpoint. -/
lemma mem_endpointGeometry (lib : String → Option TrackPiece) (p : Placement)
    (e : Endpoint) (he : e ∈ endpointGeometry lib p) :
    ∃ piece, lib p.code = Option.some piece ∧
      ∃ le ∈ localEndpoints piece p.flipped, e = worldEndpoint p le := by
  unfold endpointGeometry at he
  rcases hlib : lib p.code with _ | piece <;> rw [hlib] at he
  · exact absurd he (by simp)
  · rcases List.mem_map.mp he with ⟨le, hle, hwe⟩
    exact ⟨piece, rfl, le, hle, hwe.symm⟩

lemma getPlacementById_updateFirstBy (f : Placement → Placement)
    (hf : ∀ q, (f q).id = q.id) :
    ∀ (ps : List Placement) (id : String) (p : Placement),
      getPlacementById ps id = Option.some p →
      getPlacementById (updateFirstBy ps id f) id = Option.some (f p)
  | [], id, p, h => by
    simp [getPlacementById] at h
  | q :: rest, id, p, h => by
    unfold getPlacementById at h ⊢
    unfold updateFirstBy
    by_cases hq : q.id = id
    · rw [if_pos hq]
      rw [List.find?_cons_of_pos _ (by simp [hq])] at h
      rw [Option.some.injEq] at h
      subst h
      rw [List.find?_cons_of_pos _ (by simp [hf, hq])]
    · rw [if_neg hq]
      rw [List.find?_cons_of_neg _ (by simp [hq])] at h
      rw [List.find?_cons_of_neg _ (by simp [hq])]
      exact getPlacementById_updateFirstBy f hf rest id p h

/-- Transforming a placement about its own position as pivot: the position
just shifts by the deltas, and the new rotation agrees (up to whole turns)
with `jsMod (rotation + delta + 360) 360`. -/
lemma transformPiece_at_pivot (p : Placement) (dr dx dy : ℝ) :
    (transformPiece (p.x, p.y) dr dx dy p).x = p.x + dx ∧
    (transformPiece (p.x, p.y) dr dx dy p).y = p.y + dy ∧
    (transformPiece (p.x, p.y) dr dx dy p).code = p.code ∧
    (transformPiece (p.x, p.y) dr dx dy p).flipped = p.flipped ∧
    Real.cos (toRadians (transformPiece (p.x, p.y) dr dx dy p).rotation) =
      Real.cos (toRadians (jsMod (p.rotation + dr + 360) 360)) ∧
    Real.sin (toRadians (transformPiece (p.x, p.y) dr dx dy p).rotation) =
      Real.sin (toRadians (jsMod (p.rotation + dr + 360) 360)) := by
  unfold transformPiece
  dsimp only
  by_cases hdr : dr ≠ 0
  · rw [if_pos hdr]
    exact ⟨by dsimp; ring, by dsimp; ring, rfl, rfl, rfl, rfl⟩
  · rw [if_neg hdr]
    push_neg at hdr
    subst hdr
    obtain ⟨k, hk⟩ := jsMod_int_sub (p.rotation + 0 + 360) 360
    have hm : jsMod (p.rotation + 0 + 360) 360 = p.rotation + 360 * (((1 - k : ℤ) : ℝ)) := by
      rw [hk]
      push_cast
      ring
    refine ⟨rfl, rfl, rfl, rfl, ?_, ?_⟩
    · exact (cos_toRadians_congr _ _ (1 - k) hm).symm
    · exact (sin_toRadians_congr _ _ (1 - k) hm).symm

/-- C1: whenever `findBestSnapTransform` returns a transform, applying it
through `applySectionTransform` with the single id `[p.id]` and pivot
`(p.x, p.y)` puts the matched endpoint of the transformed placement within
`CONNECTION_TOLERANCE_MM` of the target endpoint it was matched against
(exactly onto it, in real arithmetic). -/
theorem C1_snap_roundtrip (lib : String → Option TrackPiece) (ps : List Placement)
    (p : Placement) (tr : SnapCandidate)
    (_hep : endpointGeometry lib p ≠ [])
    (hfound : getPlacementById ps p.id = Option.some p)
    (hsnap : findBestSnapTransform lib ps p = Option.some tr) :
    ∃ p', getPlacementById (applySectionTransform ps [p.id] (p.x, p.y)
        tr.deltaRotationDeg tr.deltaX tr.deltaY) p.id = Option.some p' ∧
      p' = transformPiece (p.x, p.y) tr.deltaRotationDeg tr.deltaX tr.deltaY p ∧
      ∃ other ∈ ps, other.id ≠ p.id ∧
        ∃ target ∈ endpointGeometry lib other,
          ∃ piece, lib p.code = Option.some piece ∧
            ∃ le ∈ localEndpoints piece p.flipped,
              worldEndpoint p le ∈ endpointGeometry lib p ∧
              worldEndpoint p' le ∈ endpointGeometry lib p' ∧
              hypot ((worldEndpoint p' le).x - target.x)
                  ((worldEndpoint p' le).y - target.y) ≤ CONNECTION_TOLERANCE_MM := by
  have hidf : ∀ q, (transformPiece (p.x, p.y) tr.deltaRotationDeg tr.deltaX tr.deltaY q).id =
      q.id := fun q =>
    (transformPiece_fields (p.x, p.y) tr.deltaRotationDeg tr.deltaX tr.deltaY q).1
  refine ⟨transformPiece (p.x, p.y) tr.deltaRotationDeg tr.deltaX tr.deltaY p, ?_, rfl, ?_⟩
  · exact getPlacementById_updateFirstBy _ hidf ps p.id p hfound
  · unfold findBestSnapTransform at hsnap
    rcases snapBest_foldl_mem _ _ _ hsnap with hmem | hnone
    · rcases List.mem_flatMap.mp hmem with ⟨other, hother, hcand⟩
      obtain ⟨hid, endpoint, hepm, target, htg, dt, hsc⟩ :=
        mem_snapCandidatesFor lib p other tr hcand
      obtain ⟨piece, hpiece, le, hle, hwe⟩ := mem_endpointGeometry lib p endpoint hepm
      obtain ⟨hdx, hdy⟩ := snapCandidate_some p endpoint target dt tr hsc
      obtain ⟨hx', hy', hcode', hflip', hcos', hsin'⟩ :=
        transformPiece_at_pivot p tr.deltaRotationDeg tr.deltaX tr.deltaY
      set p' := transformPiece (p.x, p.y) tr.deltaRotationDeg tr.deltaX tr.deltaY p with hp'
      have hlp : endpoint.localPosition = le.1 := by
        rw [hwe]
        rfl
      have hmem' : worldEndpoint p' le ∈ endpointGeometry lib p' := by
        unfold endpointGeometry
        rw [show p'.code = p.code from hcode', hpiece]
        rw [show p'.flipped = p.flipped from hflip']
        exact List.mem_map_of_mem _ hle
      refine ⟨other, hother, hid, target, htg, piece, hpiece, le, hle, ?_, hmem', ?_⟩
      · rw [← hwe]
        exact hepm
      · have hxval : (worldEndpoint p' le).x = target.x := by
          unfold worldEndpoint rotatePoint
          dsimp only
          rw [hcos', hsin', hx', hdx, hlp]
          unfold rotatePoint
          dsimp only
          ring
        have hyval : (worldEndpoint p' le).y = target.y := by
          unfold worldEndpoint rotatePoint
          dsimp only
          rw [hcos', hsin', hy', hdy, hlp]
          unfold rotatePoint
          dsimp only
          ring
        rw [hxval, hyval]
        simp only [sub_self]
        rw [hypot_self_zero]
        unfold CONNECTION_TOLERANCE_MM
        norm_num
    · exact absurd hnone (by simp)

/-- Two coincident endpoints are connected when the tangents are opposed or
the radials agree modulo full turns. -/
lemma connected_of_coincident (a b : Endpoint) (hx : a.x = b.x) (hy : a.y = b.y)
    (h : (∃ k : ℤ, a.tangent - b.tangent = π + 2 * π * k) ∨
      (∃ k : ℤ, a.radial - b.radial = 2 * π * k)) :
    endpointsAreConnected a b := by
  constructor
  · rw [hx, hy]
    simp only [sub_self]
    rw [hypot_self_zero]
    unfold CONNECTION_TOLERANCE_MM
    norm_num
  · rcases h with ⟨k, hk⟩ | ⟨k, hk⟩
    · left
      rw [normalizeRadians_eq_of _ π (by linarith [pi_pos]) le_rfl k (by linarith)]
      rw [abs_of_pos pi_pos, sub_self, abs_zero]
      unfold ANGLE_TOLERANCE_RAD
      positivity
    · right
      rw [normalizeRadians_eq_of _ 0 (by linarith [pi_pos]) (by linarith [pi_pos]) k
        (by linarith)]
      rw [abs_zero]
      unfold ANGLE_TOLERANCE_RAD
      positivity

lemma hypot_eval (a b c : ℝ) (hc : 0 ≤ c) (h : a ^ 2 + b ^ 2 = c ^ 2) : hypot a b = c := by
  unfold hypot
  rw [h]
  exact Real.sqrt_sq hc

lemma toDegrees_zero : toDegrees 0 = 0 := by
  unfold toDegrees
  simp

lemma toDegrees_pi : toDegrees π = 180 := by
  unfold toDegrees
  field_simp

lemma normalizeDegrees_zero : normalizeDegrees 0 = 0 :=
  normalizeDegrees_eq_of 0 0 (by norm_num) (by norm_num) 0 (by ring)

lemma normalizeDegrees_180 : normalizeDegrees 180 = 180 :=
  normalizeDegrees_eq_of 180 180 (by norm_num) (by norm_num) 0 (by ring)

def s30piece : TrackPiece :=
  { code := "S30", kind := "straight", length := 30, angle := Option.none,
    radius := Option.none, displayLength := 30 }

def s30lib : String → Option TrackPiece :=
  fun c => if c = "S30" then Option.some s30piece else Option.none

def snapP : Placement :=
  { id := "w1", code := "S30", x := 0, y := 0, rotation := 0, flipped := false }

def snapO : Placement :=
  { id := "w2", code := "S30", x := 220, y := 0, rotation := 0, flipped := false }

lemma s30_not_curve : ¬ curveBranch s30piece := by
  intro h
  exact absurd h.1 (by decide)

lemma snapP_geometry :
    endpointGeometry s30lib snapP =
      [Endpoint.mk 15 0 0 0 (15, 0) (15, 0) 0 0,
       Endpoint.mk (-15) 0 π π (-15, 0) (-15, 0) π π] := by
  unfold endpointGeometry
  rw [show s30lib snapP.code = Option.some s30piece from rfl]
  unfold localEndpoints
  dsimp only
  rw [if_neg s30_not_curve]
  rw [show effDisplayLength s30piece = 30 by unfold effDisplayLength s30piece; norm_num]
  unfold worldEndpoint rotatePoint snapP
  dsimp only
  rw [toRadians_zero]
  norm_num [atan2_zero_of_pos, atan2_pi_of_neg, normalizeRadians_zero, normalizeRadians_pi]

lemma snapO_geometry :
    endpointGeometry s30lib snapO =
      [Endpoint.mk 235 0 0 0 (15, 0) (15, 0) 0 0,
       Endpoint.mk 205 0 π π (-15, 0) (-15, 0) π π] := by
  unfold endpointGeometry
  rw [show s30lib snapO.code = Option.some s30piece from rfl]
  unfold localEndpoints
  dsimp only
  rw [if_neg s30_not_curve]
  rw [show effDisplayLength s30piece = 30 by unfold effDisplayLength s30piece; norm_num]
  unfold worldEndpoint rotatePoint snapO
  dsimp only
  rw [toRadians_zero]
  norm_num [atan2_zero_of_pos, atan2_pi_of_neg, normalizeRadians_zero, normalizeRadians_pi]

lemma snapCandidate_eval1 :
    snapCandidate snapP (Endpoint.mk 15 0 0 0 (15, 0) (15, 0) 0 0)
      (Endpoint.mk 205 0 π π (-15, 0) (-15, 0) π π) 0 =
      Option.some (SnapCandidate.mk 190 0 190 0 0) := by
  unfold snapCandidate snapP
  dsimp only
  rw [show ((0 : ℝ) - 0) = 0 by norm_num, normalizeRadians_zero, toDegrees_zero,
    normalizeDegrees_zero]
  rw [show jsMod ((0 : ℝ) + 0 + 360) 360 = 0 from
    jsMod_eq_of_nonneg _ 0 360 (by norm_num) (by norm_num) (by norm_num) (by norm_num) 1
      (by norm_num)]
  rw [toRadians_zero]
  rw [show rotatePoint 15 0 0 = ((15 : ℝ), (0 : ℝ)) by unfold rotatePoint; norm_num]
  dsimp only
  rw [atan2_zero_of_pos 15 (by norm_num)]
  rw [show ((0 : ℝ) + 0) = 0 by norm_num, normalizeRadians_zero]
  rw [if_pos (connected_of_coincident
    (Endpoint.mk 205 0 0 0 (0, 0) (0, 0) 0 0)
    (Endpoint.mk 205 0 π π (-15, 0) (-15, 0) π π) rfl rfl
    (Or.inl ⟨-1, by dsimp only; push_cast; ring⟩))]
  rw [Option.some.injEq, SnapCandidate.mk.injEq]
  refine ⟨?_, by trivial, by norm_num, by norm_num, by simp⟩
  exact hypot_eval _ _ _ (by norm_num) (by norm_num)

lemma snapCandidate_eval2 :
    snapCandidate snapP (Endpoint.mk 15 0 0 0 (15, 0) (15, 0) 0 0)
      (Endpoint.mk 205 0 π π (-15, 0) (-15, 0) π π) π =
      Option.some (SnapCandidate.mk 190 180 220 0 180) := by
  unfold snapCandidate snapP
  dsimp only
  rw [show (π - 0) = π by norm_num, normalizeRadians_pi, toDegrees_pi, normalizeDegrees_180]
  rw [show jsMod ((0 : ℝ) + 180 + 360) 360 = 180 from
    jsMod_eq_of_nonneg _ 180 360 (by norm_num) (by norm_num) (by norm_num) (by norm_num) 1
      (by norm_num)]
  rw [toRadians_180]
  rw [show rotatePoint 15 0 π = ((-15 : ℝ), (0 : ℝ)) by
    unfold rotatePoint
    rw [Real.cos_pi, Real.sin_pi]
    norm_num]
  dsimp only
  rw [atan2_pi_of_neg (-15) (by norm_num)]
  rw [show ((0 : ℝ) + π) = π by norm_num, normalizeRadians_pi]
  rw [if_pos (connected_of_coincident
    (Endpoint.mk 205 0 π π (0, 0) (0, 0) 0 0)
    (Endpoint.mk 205 0 π π (-15, 0) (-15, 0) π π) rfl rfl
    (Or.inr ⟨0, by dsimp only; push_cast; ring⟩))]
  rw [Option.some.injEq, SnapCandidate.mk.injEq]
  refine ⟨?_, by trivial, by norm_num, by norm_num,
    by rw [abs_of_pos (by norm_num : (0 : ℝ) < 180)]⟩
  exact hypot_eval _ _ _ (by norm_num) (by norm_num)

lemma snapCandidatesFor_self : snapCandidatesFor s30lib snapP snapP = [] := by
  unfold snapCandidatesFor
  rw [if_pos rfl]

lemma snapCandidatesFor_other :
    snapCandidatesFor s30lib snapP snapO =
      [SnapCandidate.mk 190 0 190 0 0, SnapCandidate.mk 190 180 220 0 180] := by
  unfold snapCandidatesFor
  rw [if_neg (by decide : ¬ snapO.id = snapP.id)]
  rw [snapP_geometry, snapO_geometry]
  simp only [List.flatMap_cons, List.flatMap_nil, List.append_nil]
  rw [show hypot ((15 : ℝ) - 235) (0 - 0) = 220 from
    hypot_eval _ _ _ (by norm_num) (by norm_num)]
  rw [show hypot ((15 : ℝ) - 205) (0 - 0) = 190 from
    hypot_eval _ _ _ (by norm_num) (by norm_num)]
  rw [show hypot ((-15 : ℝ) - 235) (0 - 0) = 250 from
    hypot_eval _ _ _ (by norm_num) (by norm_num)]
  rw [show hypot ((-15 : ℝ) - 205) (0 - 0) = 220 from
    hypot_eval _ _ _ (by norm_num) (by norm_num)]
  rw [if_pos (show (220 : ℝ) > SNAP_DISTANCE_MM by unfold SNAP_DISTANCE_MM; norm_num),
    if_neg (show ¬ ((190 : ℝ) > SNAP_DISTANCE_MM) by unfold SNAP_DISTANCE_MM; norm_num),
    if_pos (show (250 : ℝ) > SNAP_DISTANCE_MM by unfold SNAP_DISTANCE_MM; norm_num),
    if_pos (show (220 : ℝ) > SNAP_DISTANCE_MM by unfold SNAP_DISTANCE_MM; norm_num)]
  rw [normalizeRadians_two_pi, normalizeRadians_pi]
  rw [List.filterMap_cons, snapCandidate_eval1]
  rw [List.filterMap_cons, snapCandidate_eval2]
  simp

lemma snapScenario_eval :
    findBestSnapTransform s30lib [snapP, snapO] snapP =
      Option.some (SnapCandidate.mk 190 0 190 0 0) := by
  unfold findBestSnapTransform
  rw [show ([snapP, snapO] : List Placement).flatMap (snapCandidatesFor s30lib snapP) =
      snapCandidatesFor s30lib snapP snapP ++ (snapCandidatesFor s30lib snapP snapO ++ [])
    by simp]
  rw [snapCandidatesFor_self, snapCandidatesFor_other]
  simp only [List.nil_append, List.append_nil, List.foldl_cons, List.foldl_nil]
  rw [show snapBestStep Option.none (SnapCandidate.mk 190 0 190 0 0) =
      Option.some (SnapCandidate.mk 190 0 190 0 0) from rfl]
  rw [show snapBestStep (Option.some (SnapCandidate.mk 190 0 190 0 0))
      (SnapCandidate.mk 190 180 220 0 180) =
      Option.some (SnapCandidate.mk 190 0 190 0 0) by
    unfold snapBestStep
    dsimp only
    rw [if_neg (by norm_num)]]

/-- C1, witness: two 30 mm straights 190 mm apart; the solver returns the
pure translation `(0°, 190, 0)` and the snapped endpoint lands exactly on
the target. -/
theorem C1_snap_roundtrip_witness :
    endpointGeometry s30lib snapP ≠ [] ∧
    getPlacementById [snapP, snapO] snapP.id = Option.some snapP ∧
    findBestSnapTransform s30lib [snapP, snapO] snapP =
      Option.some (SnapCandidate.mk 190 0 190 0 0) ∧
    (∃ p', getPlacementById (applySectionTransform [snapP, snapO] [snapP.id]
        (snapP.x, snapP.y) (SnapCandidate.mk (190 : ℝ) 0 190 0 0).deltaRotationDeg
        (SnapCandidate.mk (190 : ℝ) 0 190 0 0).deltaX
        (SnapCandidate.mk (190 : ℝ) 0 190 0 0).deltaY) snapP.id = Option.some p' ∧
      p' = transformPiece (snapP.x, snapP.y)
        (SnapCandidate.mk (190 : ℝ) 0 190 0 0).deltaRotationDeg
        (SnapCandidate.mk (190 : ℝ) 0 190 0 0).deltaX
        (SnapCandidate.mk (190 : ℝ) 0 190 0 0).deltaY snapP ∧
      ∃ other ∈ [snapP, snapO], other.id ≠ snapP.id ∧
        ∃ target ∈ endpointGeometry s30lib other,
          ∃ piece, s30lib snapP.code = Option.some piece ∧
            ∃ le ∈ localEndpoints piece snapP.flipped,
              worldEndpoint snapP le ∈ endpointGeometry s30lib snapP ∧
              worldEndpoint p' le ∈ endpointGeometry s30lib p' ∧
              hypot ((worldEndpoint p' le).x - target.x)
                  ((worldEndpoint p' le).y - target.y) ≤ CONNECTION_TOLERANCE_MM) := by
  have h1 : endpointGeometry s30lib snapP ≠ [] := by
    rw [snapP_geometry]
    simp
  have h2 : getPlacementById [snapP, snapO] snapP.id = Option.some snapP := by
    unfold getPlacementById
    rw [List.find?_cons_of_pos _ (by simp)]
  have h3 := snapScenario_eval
  exact ⟨h1, h2, h3, C1_snap_roundtrip s30lib [snapP, snapO] snapP _ h1 h2 h3⟩
